import Mathlib

set_option linter.unusedVariables false

/-!
Verification of modules/video_chroma/orient.c (VLC image reorientation video
conversion) against its specification.

The plane routines operate on caller-owned pixel buffers through
`restrict`-qualified pointers, so in this embedding memory is a
byte-addressed total map and the (immutable) source memory is separate from
the destination memory being written.  Pointer values are integers (byte
addresses), widths/heights are naturals, strides are integers, and C
`ptrdiff_t` division is truncating division (`Int.tdiv`).
-/

namespace Orient

/-- Byte-addressed memory: a total map from byte addresses to byte values. -/
def Mem : Type := Int → Nat

/-- Semantics of `memcpy(dst + da, src + sa, n)` and, with `n` the element
size in bytes, of a `uintN_t` element assignment: the `n` bytes starting at
`da` in the destination are replaced by the `n` bytes starting at `sa` in
the source. -/
def copyBytes (n : Nat) (src : Mem) (sa : Int) (dst : Mem) (da : Int) : Mem :=
  fun a => if da ≤ a ∧ a < da + (n : Int) then src (sa + (a - da)) else dst a

/-- Fuel-driven recursion for `ctz` (the fuel argument only bounds the
recursion depth). -/
def ctzAux : Nat → Nat → Nat
  | 0, _ => 0
  | fuel + 1, n => if n % 2 = 1 ∨ n = 0 then 0 else ctzAux fuel (n / 2) + 1

/-- Count of trailing zero bits.  Modelled from the spec: `ctz` comes from
vlc_common.h, which is not under src/.  On the powers of two used by
orient.c it is the base-2 logarithm: `ctz 1 = 0`, `ctz 2 = 1`, `ctz 4 = 2`. -/
def ctz (n : Nat) : Nat := ctzAux n n

/-- Loop of `vflip`: iterates `height` times; each iteration first steps the
destination pointer back one stride, then copies one visible row of `pitch`
bytes, then advances the source pointer one stride. -/
def vflip_loop (src : Mem) (src_stride dst_stride : Int) (pitch : Nat) :
    Int → Int → Mem → Nat → Mem
  | _, _, dst, 0 => dst
  | sp, dp, dst, h + 1 =>
    vflip_loop src src_stride dst_stride pitch (sp + src_stride) (dp - dst_stride)
      (copyBytes pitch src sp dst (dp - dst_stride)) h

/-- Embedding of `vflip` (orient.c lines 37-52): byte-granular row-reversing
copy.  `visible_pitch = width << order`, and the destination pointer starts
`dst_stride * height` bytes past the base, walking backwards one row per
iteration. -/
def vflip (dst : Mem) (dstBase dst_stride : Int) (src : Mem)
    (srcBase src_stride : Int) (width height : Nat) (order : Nat) : Mem :=
  vflip_loop src src_stride dst_stride (width <<< order) srcBase
    (dstBase + dst_stride * (height : Int)) dst height

/-- Inner loop of `hflip_##bits`:
`for (x = 0; x < width; x++) dst_pixels[-x] = src_pixels[x];` where the
pointers are element pointers and an element is `w` bytes. -/
def hflip_row (w : Nat) (src : Mem) (sp dp : Int) (dst : Mem) : Nat → Mem
  | 0 => dst
  | x + 1 =>
    copyBytes w src (sp + (x : Int) * (w : Int)) (hflip_row w src sp dp dst x)
      (dp - (x : Int) * (w : Int))

/-- Outer loop of `hflip_##bits`: after each row the source and destination
element pointers advance by the element-unit strides `ssE` and `dsE`, i.e.
by `ssE * w` and `dsE * w` bytes. -/
def hflip_loop (w : Nat) (src : Mem) (ssE dsE : Int) (width : Nat) :
    Int → Int → Mem → Nat → Mem
  | _, _, dst, 0 => dst
  | sp, dp, dst, h + 1 =>
    hflip_loop w src ssE dsE width (sp + ssE * (w : Int)) (dp + dsE * (w : Int))
      (hflip_row w src sp dp dst width) h

/-- Embedding of `hflip_##bits` (orient.c lines 54-73), element size
`w = bits / 8` bytes: the byte strides are divided by the element size
(`ptrdiff_t` division truncates, hence `Int.tdiv`), the destination element
pointer starts at the last element of the first row (`dst_pixels += width - 1`),
and each row is written backwards. -/
def hflip (w : Nat) (dst : Mem) (dstBase dst_stride : Int) (src : Mem)
    (srcBase src_stride : Int) (width height : Nat) : Mem :=
  hflip_loop w src (src_stride.tdiv (w : Int)) (dst_stride.tdiv (w : Int)) width
    srcBase (dstBase + ((width : Int) - 1) * (w : Int)) dst height

/-- Embedding of `vflip_##bits` (orient.c lines 75-80): delegates to the
byte-granular `vflip` with `order = ctz(bits / 8) = ctz w`. -/
def vflip_w (w : Nat) (dst : Mem) (dstBase dst_stride : Int) (src : Mem)
    (srcBase src_stride : Int) (width height : Nat) : Mem :=
  vflip dst dstBase dst_stride src srcBase src_stride width height (ctz w)

/-- Embedding of `r180_##bits` (orient.c lines 82-91): points the source at
the start of its last visible row, negates the source stride, and calls
`hflip`. -/
def r180 (w : Nat) (dst : Mem) (dstBase dst_stride : Int) (src : Mem)
    (srcBase src_stride : Int) (width height : Nat) : Mem :=
  hflip w dst dstBase dst_stride src
    (srcBase + ((height : Int) - 1) * src_stride) (-src_stride) width height

/-- Inner loop of `transpose_##bits`:
`for (x = 0; x < src_width; x++) dst_pixels[x * dst_stride] = src_pixels[x];`
with element pointers; the destination element index `x * dsE` is
`x * dsE * w` bytes. -/
def transpose_row (w : Nat) (src : Mem) (dsE : Int) (sp dp : Int) (dst : Mem) :
    Nat → Mem
  | 0 => dst
  | x + 1 =>
    copyBytes w src (sp + (x : Int) * (w : Int)) (transpose_row w src dsE sp dp dst x)
      (dp + (x : Int) * (dsE * (w : Int)))

/-- Outer loop of `transpose_##bits`: after each source row the source
element pointer advances one source stride and the destination element
pointer advances one element (`dst_pixels++`, i.e. `w` bytes). -/
def transpose_loop (w : Nat) (src : Mem) (ssE dsE : Int) (src_width : Nat) :
    Int → Int → Mem → Nat → Mem
  | _, _, dst, 0 => dst
  | sp, dp, dst, h + 1 =>
    transpose_loop w src ssE dsE src_width (sp + ssE * (w : Int)) (dp + (w : Int))
      (transpose_row w src dsE sp dp dst src_width) h

/-- Embedding of `transpose_##bits` (orient.c lines 93-109). -/
def transpose (w : Nat) (dst : Mem) (dstBase dst_stride : Int) (src : Mem)
    (srcBase src_stride : Int) (src_width src_height : Nat) : Mem :=
  transpose_loop w src (src_stride.tdiv (w : Int)) (dst_stride.tdiv (w : Int))
    src_width srcBase dstBase dst src_height

/-- Embedding of `r270_##bits` (orient.c lines 111-120): points the
destination at its last visible row (`dst_pixels += (src_width - 1) * dst_stride`),
negates the destination stride, and calls `transpose`. -/
def r270 (w : Nat) (dst : Mem) (dstBase dst_stride : Int) (src : Mem)
    (srcBase src_stride : Int) (src_width src_height : Nat) : Mem :=
  transpose w dst (dstBase + ((src_width : Int) - 1) * dst_stride) (-dst_stride)
    src srcBase src_stride src_width src_height

/-- Embedding of `r90_##bits` (orient.c lines 122-133): points the source at
the start of its last visible row, negates the source stride, and calls
`transpose`. -/
def r90 (w : Nat) (dst : Mem) (dstBase dst_stride : Int) (src : Mem)
    (srcBase src_stride : Int) (src_width src_height : Nat) : Mem :=
  transpose w dst dstBase dst_stride src
    (srcBase + ((src_height : Int) - 1) * src_stride) (-src_stride)
    src_width src_height

/-- Embedding of `antitranspose_##bits` (orient.c lines 135-146): points the
source at the start of its last visible row, negates the source stride, and
calls `r270`. -/
def antitranspose (w : Nat) (dst : Mem) (dstBase dst_stride : Int) (src : Mem)
    (srcBase src_stride : Int) (src_width src_height : Nat) : Mem :=
  r270 w dst dstBase dst_stride src
    (srcBase + ((src_height : Int) - 1) * src_stride) (-src_stride)
    src_width src_height

/-- The transform kinds (`video_transform_t`, as used by orient.c). -/
inductive video_transform where
  | TRANSFORM_IDENTITY
  | TRANSFORM_HFLIP
  | TRANSFORM_VFLIP
  | TRANSFORM_R180
  | TRANSFORM_R90
  | TRANSFORM_R270
  | TRANSFORM_TRANSPOSE
  | TRANSFORM_ANTI_TRANSPOSE
  deriving DecidableEq

/-- Modelled from the spec: `ORIENT_IS_SWAP` comes from vlc_es.h, which is
not under src/.  Swap-class transforms exchange width and height: rotation
by 90 or 270 degrees, transpose, and anti-transpose. -/
def ORIENT_IS_SWAP : video_transform → Bool
  | .TRANSFORM_R90 | .TRANSFORM_R270 | .TRANSFORM_TRANSPOSE
  | .TRANSFORM_ANTI_TRANSPOSE => true
  | _ => false

/-- A plane transform callback slot: `none` models a NULL function pointer;
`some (g, bits)` names the function `g##_##bits` generated by
`TRANSFORMS(bits)`. -/
abbrev plane_transform_cb := Option (video_transform × Nat)

/-- Interpretation of a callback tag `(t, bits)` as the embedded routine it
names, with element size `bits / 8` bytes.  Identity has no generated
routine (its `descriptions` row is NULL) and is never selected by `Open`;
it leaves the destination untouched here. -/
def run_cb (t : video_transform) (bits : Nat) (dst : Mem)
    (dstBase dst_stride : Int) (src : Mem) (srcBase src_stride : Int)
    (width height : Nat) : Mem :=
  match t with
  | .TRANSFORM_IDENTITY => dst
  | .TRANSFORM_HFLIP =>
    hflip (bits / 8) dst dstBase dst_stride src srcBase src_stride width height
  | .TRANSFORM_VFLIP =>
    vflip_w (bits / 8) dst dstBase dst_stride src srcBase src_stride width height
  | .TRANSFORM_R180 =>
    r180 (bits / 8) dst dstBase dst_stride src srcBase src_stride width height
  | .TRANSFORM_R90 =>
    r90 (bits / 8) dst dstBase dst_stride src srcBase src_stride width height
  | .TRANSFORM_R270 =>
    r270 (bits / 8) dst dstBase dst_stride src srcBase src_stride width height
  | .TRANSFORM_TRANSPOSE =>
    transpose (bits / 8) dst dstBase dst_stride src srcBase src_stride width height
  | .TRANSFORM_ANTI_TRANSPOSE =>
    antitranspose (bits / 8) dst dstBase dst_stride src srcBase src_stride width height

/-- The `transform_description_t` record: one callback per element width. -/
structure transform_description_t where
  plane8 : plane_transform_cb
  plane16 : plane_transform_cb
  plane32 : plane_transform_cb
  deriving DecidableEq

/-- The `DESC(g)` macro row: `{ g##_8, g##_16, g##_32 }`. -/
def DESC (g : video_transform) : transform_description_t :=
  { plane8 := some (g, 8), plane16 := some (g, 16), plane32 := some (g, 32) }

/-- The designated-initializer table `descriptions` (orient.c lines 164-172):
one `DESC` row per non-identity transform; the identity index, written by no
initializer, holds NULL pointers. -/
def descriptions : video_transform → transform_description_t
  | .TRANSFORM_IDENTITY => { plane8 := none, plane16 := none, plane32 := none }
  | t => DESC t

/-- Modelled from the spec: `PICTURE_PLANE_MAX` comes from vlc_picture.h,
which is not under src/; the plane count of a frame is bounded by a fixed
maximum. -/
abbrev PICTURE_PLANE_MAX : Nat := 5

/-- The module's private state: the resolved transform and the per-plane
callback table. -/
structure filter_sys_t where
  transform : video_transform
  plane : Fin PICTURE_PLANE_MAX → plane_transform_cb

/-- Modelled from the spec: VLC return codes from vlc_common.h, which is not
under src/.  Success is zero and the error codes are distinct negative
values (negated POSIX errno values; the exact magnitudes are immaterial). -/
def VLC_SUCCESS : Int := 0

/-- Modelled from the spec: out-of-memory return code (see `VLC_SUCCESS`). -/
def VLC_ENOMEM : Int := -12

/-- Modelled from the spec: not-supported return code (see `VLC_SUCCESS`). -/
def VLC_ENOTSUP : Int := -95

/-- Modelled from the spec: the mouse state (`vlc_mouse_t`, vlc_mouse.h, not
under src/): pointer coordinates plus the non-coordinate state (the pressed
button mask, which also encodes the wheel, and the double-click flag). -/
structure vlc_mouse_t where
  i_x : Int
  i_y : Int
  i_pressed : Nat
  b_double_click : Bool
  deriving DecidableEq

/-- First switch of `Mouse` (orient.c lines 208-227), computing the source
x coordinate.  The identity case is `vlc_assert_unreachable()`; `Mouse`
yields no result for it before this value could matter, so it is given an
arbitrary value here. -/
def mouse_sx (t : video_transform) (dw dh dx dy : Int) : Int :=
  match t with
  | .TRANSFORM_HFLIP | .TRANSFORM_R180 => dw - 1 - dx
  | .TRANSFORM_VFLIP => dx
  | .TRANSFORM_TRANSPOSE | .TRANSFORM_R90 => dy
  | .TRANSFORM_R270 | .TRANSFORM_ANTI_TRANSPOSE => dh - 1 - dy
  | .TRANSFORM_IDENTITY => 0

/-- Second switch of `Mouse` (orient.c lines 229-248), computing the source
y coordinate (identity as in `mouse_sx`). -/
def mouse_sy (t : video_transform) (dw dh dx dy : Int) : Int :=
  match t with
  | .TRANSFORM_HFLIP => dy
  | .TRANSFORM_VFLIP | .TRANSFORM_R180 => dh - 1 - dy
  | .TRANSFORM_TRANSPOSE | .TRANSFORM_R270 => dx
  | .TRANSFORM_R90 | .TRANSFORM_ANTI_TRANSPOSE => dw - 1 - dx
  | .TRANSFORM_IDENTITY => 0

/-- Embedding of `Mouse` (orient.c lines 199-255).  `dw`/`dh` are the output
format's visible width and height; `mold`, the previous mouse state, is
explicitly unused in the source (`VLC_UNUSED(mold)`).  A configured identity
transform would hit `vlc_assert_unreachable()`, modelled as `none`;
otherwise the function overwrites `i_x`/`i_y` and returns `VLC_SUCCESS`. -/
def Mouse (t : video_transform) (dw dh : Int) (mouse mold : vlc_mouse_t) :
    Option (vlc_mouse_t × Int) :=
  if t = .TRANSFORM_IDENTITY then none
  else
    some ({ mouse with
              i_x := mouse_sx t dw dh mouse.i_x mouse.i_y
              i_y := mouse_sy t dw dh mouse.i_x mouse.i_y }, VLC_SUCCESS)

/-- The fields of `picture_t` that `Filter` inspects. -/
structure picture_t where
  i_planes : Nat
  deriving DecidableEq

/-- External effects performed by `Filter`, in order. -/
inductive FilterEvent where
  | invoke_plane (i : Nat) (cb : plane_transform_cb)
  | picture_CopyProperties
  | picture_Release
  deriving DecidableEq

/-- Lookup in the per-plane callback table.  An index at or beyond
`PICTURE_PLANE_MAX` would be out of bounds in C; it yields NULL here and is
never exercised by valid pictures. -/
def plane_entry (sys : filter_sys_t) (i : Nat) : plane_transform_cb :=
  if h : i < PICTURE_PLANE_MAX then sys.plane ⟨i, h⟩ else none

/-- Embedding of `Filter` (orient.c lines 180-197) as a returned picture
plus the ordered trace of its external effects.  `newpic` is the result of
`filter_NewPicture`: when it is non-NULL every source plane's callback is
invoked and the picture properties are copied; in every case the source
picture is released at the end and the (possibly NULL) destination is
returned. -/
def Filter (sys : filter_sys_t) (src : picture_t) (newpic : Option picture_t) :
    Option picture_t × List FilterEvent :=
  match newpic with
  | some dst =>
    (some dst,
      ((List.range src.i_planes).map
          fun i => FilterEvent.invoke_plane i (plane_entry sys i)) ++
        [FilterEvent.picture_CopyProperties, FilterEvent.picture_Release])
  | none => (none, [FilterEvent.picture_Release])

/-- Modelled from the spec: the video format descriptor (`video_format_t`,
vlc_es.h, not under src/), restricted to the fields orient.c reads: pixel
encoding, full and visible geometry, offsets, and the orientation (kept
abstract as a number). -/
structure video_format_t where
  i_chroma : Nat
  i_width : Nat
  i_height : Nat
  i_visible_width : Nat
  i_visible_height : Nat
  i_x_offset : Nat
  i_y_offset : Nat
  orientation : Nat
  deriving DecidableEq

/-- Modelled from the spec: a sample-density ratio (`vlc_rational_t`). -/
structure vlc_rational_t where
  num : Nat
  den : Nat
  deriving DecidableEq

/-- Modelled from the spec: per-plane horizontal and vertical sample-density
ratios of a chroma description. -/
structure chroma_plane_t where
  w : vlc_rational_t
  h : vlc_rational_t
  deriving DecidableEq

/-- Modelled from the spec: the chroma description
(`vlc_chroma_description_t`, vlc_fourcc.h, not under src/): plane count,
per-plane sample ratios, and the pixel size in bytes. -/
structure vlc_chroma_description_t where
  plane_count : Nat
  p : Nat → chroma_plane_t
  pixel_size : Nat

/-- Modelled from the spec: `VLC_FOURCC` packs four character codes
little-endian into one number. -/
def VLC_FOURCC (a b c d : Nat) : Nat := a + 256 * b + 65536 * c + 16777216 * d

/-- The NV12 fourcc (characters N, V, 1, 2). -/
def VLC_CODEC_NV12 : Nat := VLC_FOURCC 78 86 49 50

/-- The NV21 fourcc (characters N, V, 2, 1). -/
def VLC_CODEC_NV21 : Nat := VLC_FOURCC 78 86 50 49

/-- Continuation of `Open` after the pixel-size switch has selected the
primary-plane callback `p0` (orient.c lines 296-321): copy `p0` to every
plane slot, reject swap-class transforms on any non-square-sampled plane,
then apply the packed-format (NV12/NV21) override to the second plane. -/
def open_rest (transform : video_transform) (p0 : plane_transform_cb)
    (chroma : vlc_chroma_description_t) (fmt_in : video_format_t) :
    Option filter_sys_t × Int :=
  let dsc := descriptions transform
  let plane0 : Fin PICTURE_PLANE_MAX → plane_transform_cb := fun _ => p0
  if ORIENT_IS_SWAP transform = true ∧
      ((List.range chroma.plane_count).any fun i =>
        (chroma.p i).w.num * (chroma.p i).h.den !=
          (chroma.p i).h.num * (chroma.p i).w.den) = true then
    (none, VLC_ENOTSUP)
  else
    let planes :=
      if fmt_in.i_chroma = VLC_CODEC_NV12 ∨ fmt_in.i_chroma = VLC_CODEC_NV21 then
        Function.update plane0 1 dsc.plane16
      else plane0
    (some { transform := transform, plane := planes }, VLC_SUCCESS)

/-- Embedding of `Open` (orient.c lines 257-331).  The collaborators that
are not part of this module are parameters: `video_format_GetTransform` and
`video_format_TransformBy` (vlc_es), `vlc_fourcc_GetChromaDescription`
(vlc_fourcc) as abstract functions, and `vlc_obj_malloc` as a success flag
`allocOk`.  The result is the installed `filter_sys_t` (if any) together
with the returned VLC code; on every rejection no state is installed. -/
def Open (video_format_GetTransform : Nat → Nat → video_transform)
    (video_format_TransformBy : video_format_t → video_transform → video_format_t)
    (vlc_fourcc_GetChromaDescription : Nat → Option vlc_chroma_description_t)
    (allocOk : Bool) (fmt_in fmt_out : video_format_t) :
    Option filter_sys_t × Int :=
  let transform := video_format_GetTransform fmt_in.orientation fmt_out.orientation
  if transform = .TRANSFORM_IDENTITY then (none, VLC_ENOTSUP)
  else
    let src_trans := video_format_TransformBy fmt_in transform
    if fmt_out.i_chroma ≠ src_trans.i_chroma ∨
        fmt_out.i_width ≠ src_trans.i_width ∨
        fmt_out.i_visible_width ≠ src_trans.i_visible_width ∨
        fmt_out.i_height ≠ src_trans.i_height ∨
        fmt_out.i_visible_height ≠ src_trans.i_visible_height ∨
        fmt_out.i_x_offset ≠ src_trans.i_x_offset ∨
        fmt_out.i_y_offset ≠ src_trans.i_y_offset then (none, VLC_ENOTSUP)
    else
      match vlc_fourcc_GetChromaDescription fmt_in.i_chroma with
      | none => (none, VLC_ENOTSUP)
      | some chroma =>
        if allocOk = false then (none, VLC_ENOMEM)
        else
          match chroma.pixel_size with
          | 1 => open_rest transform (descriptions transform).plane8 chroma fmt_in
          | 2 => open_rest transform (descriptions transform).plane16 chroma fmt_in
          | 4 => open_rest transform (descriptions transform).plane32 chroma fmt_in
          | _ => (none, VLC_ENOTSUP)

/-- The coordinate action of the plane primitives on visible pixel
positions: the routine for `t` writes the source pixel at column `sx`, row
`sy` of a `sw`-by-`sh` source plane to the destination column/row returned
here.  This is exactly the convention under which the `Mouse` table is the
inverse mapping; it is established against the embedded routines in the
theorem for claim C5.  Identity, which has no plane routine, maps a point to
itself. -/
def forward_point (t : video_transform) (sw sh sx sy : Int) : Int × Int :=
  match t with
  | .TRANSFORM_IDENTITY => (sx, sy)
  | .TRANSFORM_HFLIP => (sw - 1 - sx, sy)
  | .TRANSFORM_VFLIP => (sx, sh - 1 - sy)
  | .TRANSFORM_R180 => (sw - 1 - sx, sh - 1 - sy)
  | .TRANSFORM_TRANSPOSE => (sy, sx)
  | .TRANSFORM_R90 => (sh - 1 - sy, sx)
  | .TRANSFORM_R270 => (sy, sw - 1 - sx)
  | .TRANSFORM_ANTI_TRANSPOSE => (sh - 1 - sy, sw - 1 - sx)

/-- The compatibility conditions of claim C7, written from the spec's five
gate checks (the allocation step excluded, as the claim assumes it
succeeds): the resolved transform is not the identity; the abstractly
transformed source geometry equals the destination format in chroma, width,
visible width, height, visible height and offsets; the chroma description
resolves; for swap-class transforms every plane has a square sample ratio;
and the pixel size is 1, 2 or 4. -/
def OpenConds (video_format_GetTransform : Nat → Nat → video_transform)
    (video_format_TransformBy : video_format_t → video_transform → video_format_t)
    (vlc_fourcc_GetChromaDescription : Nat → Option vlc_chroma_description_t)
    (fmt_in fmt_out : video_format_t) : Prop :=
  video_format_GetTransform fmt_in.orientation fmt_out.orientation ≠
    .TRANSFORM_IDENTITY ∧
  (fmt_out.i_chroma =
      (video_format_TransformBy fmt_in
        (video_format_GetTransform fmt_in.orientation fmt_out.orientation)).i_chroma ∧
    fmt_out.i_width =
      (video_format_TransformBy fmt_in
        (video_format_GetTransform fmt_in.orientation fmt_out.orientation)).i_width ∧
    fmt_out.i_visible_width =
      (video_format_TransformBy fmt_in
        (video_format_GetTransform fmt_in.orientation
          fmt_out.orientation)).i_visible_width ∧
    fmt_out.i_height =
      (video_format_TransformBy fmt_in
        (video_format_GetTransform fmt_in.orientation fmt_out.orientation)).i_height ∧
    fmt_out.i_visible_height =
      (video_format_TransformBy fmt_in
        (video_format_GetTransform fmt_in.orientation
          fmt_out.orientation)).i_visible_height ∧
    fmt_out.i_x_offset =
      (video_format_TransformBy fmt_in
        (video_format_GetTransform fmt_in.orientation fmt_out.orientation)).i_x_offset ∧
    fmt_out.i_y_offset =
      (video_format_TransformBy fmt_in
        (video_format_GetTransform fmt_in.orientation
          fmt_out.orientation)).i_y_offset) ∧
  ∃ chroma, vlc_fourcc_GetChromaDescription fmt_in.i_chroma = some chroma ∧
    (ORIENT_IS_SWAP
        (video_format_GetTransform fmt_in.orientation fmt_out.orientation) = true →
      ∀ i, i < chroma.plane_count →
        (chroma.p i).w.num * (chroma.p i).h.den =
          (chroma.p i).h.num * (chroma.p i).w.den) ∧
    (chroma.pixel_size = 1 ∨ chroma.pixel_size = 2 ∨ chroma.pixel_size = 4)

/-- Membership in the visible region of a plane: byte `a` lies in some
visible row `y` (of `rows` rows starting at `base`, row pitch `stride`) at
some byte offset `c` below the visible row size `rowBytes`. -/
def inRegion (base stride : Int) (rows rowBytes : Nat) (a : Int) : Prop :=
  ∃ y c : Nat, y < rows ∧ c < rowBytes ∧ a = base + (y : Int) * stride + (c : Int)

/-- Concrete test memory: byte address `a` holds the list entry at index `a`
(zero outside the list). -/
def listMem (l : List Nat) : Mem :=
  fun a => if 0 ≤ a then l.getD a.toNat 0 else 0

/-! ## Basic lemmas about `copyBytes` -/

/-- Reading a byte inside the range just written by `copyBytes` yields the
corresponding source byte. -/
theorem copyBytes_at (n : Nat) (src : Mem) (sa : Int) (dst : Mem) (da : Int)
    (b : Nat) (hb : b < n) :
    copyBytes n src sa dst da (da + (b : Int)) = src (sa + (b : Int)) := by
  unfold copyBytes
  rw [if_pos ⟨by omega, by omega⟩]
  congr 1
  ring

/-- A byte outside the range written by `copyBytes` is unchanged. -/
theorem copyBytes_out (n : Nat) (src : Mem) (sa : Int) (dst : Mem) (da a : Int)
    (ha : ∀ b : Nat, b < n → a ≠ da + (b : Int)) :
    copyBytes n src sa dst da a = dst a := by
  unfold copyBytes
  rw [if_neg]
  rintro ⟨h1, h2⟩
  exact ha (a - da).toNat (by omega) (by omega)

/-- The result of `copyBytes` depends only on the `n` source bytes starting
at `sa` and on the destination byte being read. -/
theorem copyBytes_congr (n : Nat) (src1 src2 : Mem) (sa : Int) (dst1 dst2 : Mem)
    (da a : Int)
    (hsrc : ∀ b : Nat, b < n → src1 (sa + (b : Int)) = src2 (sa + (b : Int)))
    (hdst : dst1 a = dst2 a) :
    copyBytes n src1 sa dst1 da a = copyBytes n src2 sa dst2 da a := by
  unfold copyBytes
  split
  · next hin =>
    have hb := hsrc (a - da).toNat (by omega)
    have hcast : ((a - da).toNat : Int) = a - da := by omega
    rw [hcast] at hb
    exact hb
  · exact hdst

/-! ## The `hflip` loops -/

/-- A byte outside every element window written by a row of `hflip` is
unchanged.  Iteration `x` writes the `w` bytes at `dp - x*w`. -/
theorem hflip_row_frame (w : Nat) (src : Mem) (sp dp : Int) (dst : Mem) :
    ∀ (W : Nat) (a : Int),
      (∀ x b : Nat, x < W → b < w → a ≠ dp - (x : Int) * w + b) →
      hflip_row w src sp dp dst W a = dst a := by
  intro W
  induction W with
  | zero => intro a ha; rfl
  | succ n ih =>
    intro a ha
    simp only [hflip_row]
    rw [copyBytes_out]
    · exact ih a fun x b hx hb => ha x b (by omega) hb
    · intro b hb
      exact ha n b (by omega) hb

/-- Value written by a row of `hflip`: byte `b` of the element at
`dp - x*w` holds byte `b` of the source element at `sp + x*w`. -/
theorem hflip_row_get (w : Nat) (hw : 0 < w) (src : Mem) (sp dp : Int) (dst : Mem) :
    ∀ (W : Nat) (x b : Nat), x < W → b < w →
      hflip_row w src sp dp dst W (dp - (x : Int) * w + b) =
        src (sp + (x : Int) * w + b) := by
  intro W
  induction W with
  | zero => intro x b hx hb; omega
  | succ n ih =>
    intro x b hx hb
    simp only [hflip_row]
    rcases Nat.lt_succ_iff_lt_or_eq.mp hx with h | rfl
    · rw [copyBytes_out]
      · exact ih x b h hb
      · intro b2 hb2 hEq
        have h2 : (w : Int) ≤ ((n : Int) - x) * w :=
          le_mul_of_one_le_left (by positivity) (by omega)
        have h3 : ((n : Int) - x) * w = (n : Int) * w - (x : Int) * w := by ring
        have c1 : ((b : Int)) < w := by exact_mod_cast hb
        have c2 : (0 : Int) ≤ (b2 : Int) := by positivity
        have c3 : ((b2 : Int)) < w := by exact_mod_cast hb2
        linarith
    · have haddr : dp - (x : Int) * w + b = (dp - (x : Int) * w) + (b : Int) := by ring
      rw [haddr, copyBytes_at w src _ _ _ b hb]

/-- A byte outside every element window written by `hflip_loop` is
unchanged.  Row `y`, iteration `x` writes the `w` bytes at
`dp + y*(dsE*w) - x*w`. -/
theorem hflip_loop_frame (w : Nat) (src : Mem) (ssE dsE : Int) (W : Nat) :
    ∀ (h : Nat) (sp dp : Int) (dst : Mem) (a : Int),
      (∀ y x b : Nat, y < h → x < W → b < w →
        a ≠ dp + (y : Int) * (dsE * w) - (x : Int) * w + b) →
      hflip_loop w src ssE dsE W sp dp dst h a = dst a := by
  intro h
  induction h with
  | zero => intro sp dp dst a ha; rfl
  | succ n ih =>
    intro sp dp dst a ha
    simp only [hflip_loop]
    rw [ih (sp + ssE * w) (dp + dsE * w) _ a]
    · apply hflip_row_frame
      intro x b hx hb hEq
      apply ha 0 x b (by omega) hx hb
      rw [hEq]; push_cast; ring
    · intro y x b hy hx hb hEq
      apply ha (y + 1) x b (by omega) hx hb
      rw [hEq]; push_cast; ring

/-- Value written by `hflip_loop` at row `y`, backward element offset `x`,
byte `b`, provided the destination stride covers a full row. -/
theorem hflip_loop_get (w : Nat) (hw : 0 < w) (src : Mem) (ssE dsE : Int)
    (W : Nat) (hD : (W : Int) * w ≤ dsE * w) :
    ∀ (h : Nat) (sp dp : Int) (dst : Mem) (y x b : Nat),
      y < h → x < W → b < w →
      hflip_loop w src ssE dsE W sp dp dst h
          (dp + (y : Int) * (dsE * w) - (x : Int) * w + b) =
        src (sp + (y : Int) * (ssE * w) + (x : Int) * w + b) := by
  intro h
  induction h with
  | zero => intro sp dp dst y x b hy hx hb; omega
  | succ n ih =>
    intro sp dp dst y x b hy hx hb
    simp only [hflip_loop]
    have hP0 : (0 : Int) ≤ dsE * w := le_trans (by positivity) hD
    cases y with
    | zero =>
      have haddr : dp + ((0 : Nat) : Int) * (dsE * w) - (x : Int) * w + b =
          dp - (x : Int) * w + b := by push_cast; ring
      have hval : sp + ((0 : Nat) : Int) * (ssE * w) + (x : Int) * w + b =
          sp + (x : Int) * w + b := by push_cast; ring
      rw [haddr, hval]
      rw [hflip_loop_frame w src ssE dsE W n (sp + ssE * w) (dp + dsE * w) _ _ ?frame]
      case frame =>
        intro y2 x2 b2 hy2 hx2 hb2 hEq
        have hy2P : dsE * w ≤ ((y2 : Int) + 1) * (dsE * w) :=
          le_mul_of_one_le_left hP0 (by omega)
        have c1 : (0 : Int) ≤ (x : Int) * w := by positivity
        have c2 : ((x2 : Int)) * w ≤ ((W : Int) - 1) * w :=
          mul_le_mul_of_nonneg_right (by omega) (by positivity)
        have c3 : ((b : Int)) < w := by exact_mod_cast hb
        have c4 : (0 : Int) ≤ (b2 : Int) := by positivity
        have hexp : ((y2 : Int) + 1) * (dsE * w) =
            (y2 : Int) * (dsE * w) + dsE * w := by ring
        have hWw : ((W : Int) - 1) * w = (W : Int) * w - w := by ring
        nlinarith [hEq, hy2P, c1, c2, c3, c4, hD]
      · exact hflip_row_get w hw src sp dp dst W x b hx hb
    | succ y2 =>
      have haddr : dp + ((y2 + 1 : Nat) : Int) * (dsE * w) - (x : Int) * w + b =
          (dp + dsE * w) + (y2 : Int) * (dsE * w) - (x : Int) * w + b := by
        push_cast; ring
      have hval : sp + ((y2 + 1 : Nat) : Int) * (ssE * w) + (x : Int) * w + b =
          (sp + ssE * w) + (y2 : Int) * (ssE * w) + (x : Int) * w + b := by
        push_cast; ring
      rw [haddr, hval]
      exact ih (sp + ssE * w) (dp + dsE * w) _ y2 x b (by omega) hx hb

/-- The result of a row of `hflip` depends only on the source bytes of that
row and on the destination memory pointwise. -/
theorem hflip_row_congr (w : Nat) (src1 src2 : Mem) (sp dp : Int) :
    ∀ (W : Nat) (dst1 dst2 : Mem),
      (∀ x b : Nat, x < W → b < w →
        src1 (sp + (x : Int) * w + b) = src2 (sp + (x : Int) * w + b)) →
      (∀ a, dst1 a = dst2 a) →
      ∀ a, hflip_row w src1 sp dp dst1 W a = hflip_row w src2 sp dp dst2 W a := by
  intro W
  induction W with
  | zero => intro dst1 dst2 hsrc hdst a; exact hdst a
  | succ n ih =>
    intro dst1 dst2 hsrc hdst a
    simp only [hflip_row]
    apply copyBytes_congr
    · intro b hb
      have := hsrc n b (by omega) hb
      have haddr : sp + (n : Int) * w + b = (sp + (n : Int) * w) + (b : Int) := by ring
      rw [haddr] at this
      exact this
    · exact ih dst1 dst2 (fun x b hx hb => hsrc x b (by omega) hb) hdst a

/-- The result of `hflip_loop` depends only on the visible source bytes and
on the destination memory pointwise. -/
theorem hflip_loop_congr (w : Nat) (src1 src2 : Mem) (ssE dsE : Int) (W : Nat) :
    ∀ (h : Nat) (sp dp : Int) (dst1 dst2 : Mem),
      (∀ y x b : Nat, y < h → x < W → b < w →
        src1 (sp + (y : Int) * (ssE * w) + (x : Int) * w + b) =
          src2 (sp + (y : Int) * (ssE * w) + (x : Int) * w + b)) →
      (∀ a, dst1 a = dst2 a) →
      ∀ a, hflip_loop w src1 ssE dsE W sp dp dst1 h a =
        hflip_loop w src2 ssE dsE W sp dp dst2 h a := by
  intro h
  induction h with
  | zero => intro sp dp dst1 dst2 hsrc hdst a; exact hdst a
  | succ n ih =>
    intro sp dp dst1 dst2 hsrc hdst a
    simp only [hflip_loop]
    apply ih
    · intro y x b hy hx hb
      have haddr : (sp + ssE * (w : Int)) + (y : Int) * (ssE * w) + (x : Int) * w + b =
          sp + ((y + 1 : Nat) : Int) * (ssE * w) + (x : Int) * w + b := by
        push_cast; ring
      rw [haddr]
      exact hsrc (y + 1) x b (by omega) hx hb
    · intro a2
      apply hflip_row_congr
      · intro x b hx hb
        have := hsrc 0 x b (by omega) hx hb
        have haddr : sp + ((0 : Nat) : Int) * (ssE * w) + (x : Int) * w + b =
            sp + (x : Int) * w + b := by push_cast; ring
        rw [haddr] at this
        exact this
      · exact hdst

/-- Exactness of the stride division performed by the element routines. -/
theorem tdiv_mul_cancel (w : Nat) (hw : 0 < w) (e : Int) :
    (e * (w : Int)).tdiv (w : Int) = e :=
  Int.mul_tdiv_cancel e (by exact_mod_cast hw.ne')

/-- Characterization of `hflip`: with strides that are exact multiples of
the element size and a destination stride covering a visible row, the
destination pixel at column `x` of row `y` holds the source pixel at column
`W - 1 - x` of row `y` (bytewise).  The source element stride `ssE` may be
negative (as used by `r180`). -/
theorem hflip_spec (w : Nat) (hw : 0 < w) (dst src : Mem) (dstBase srcBase : Int)
    (ssE dsE : Int) (W H : Nat) (hds : (W : Int) ≤ dsE)
    (y x b : Nat) (hy : y < H) (hx : x < W) (hb : b < w) :
    hflip w dst dstBase (dsE * w) src srcBase (ssE * w) W H
        (dstBase + (y : Int) * (dsE * w) + (x : Int) * w + b) =
      src (srcBase + (y : Int) * (ssE * w) + ((W - 1 - x : Nat) : Int) * w + b) := by
  unfold hflip
  rw [tdiv_mul_cancel w hw ssE, tdiv_mul_cancel w hw dsE]
  have hD : (W : Int) * w ≤ dsE * w :=
    mul_le_mul_of_nonneg_right hds (by positivity)
  have haddr : dstBase + (y : Int) * (dsE * w) + (x : Int) * w + b =
      (dstBase + ((W : Int) - 1) * w) + (y : Int) * (dsE * w) -
        ((W - 1 - x : Nat) : Int) * w + b := by
    have hc : ((W - 1 - x : Nat) : Int) = (W : Int) - 1 - x := by omega
    rw [hc]; ring
  rw [haddr]
  exact hflip_loop_get w hw src ssE dsE W hD H srcBase _ dst y (W - 1 - x) b hy
    (by omega) hb

/-! ## The `transpose` loops -/

/-- A byte outside every element window written by a row of `transpose` is
unchanged.  Iteration `x` writes the `w` bytes at `dp + x*(dsE*w)`. -/
theorem transpose_row_frame (w : Nat) (src : Mem) (dsE : Int) (sp dp : Int)
    (dst : Mem) :
    ∀ (W : Nat) (a : Int),
      (∀ x b : Nat, x < W → b < w → a ≠ dp + (x : Int) * (dsE * w) + b) →
      transpose_row w src dsE sp dp dst W a = dst a := by
  intro W
  induction W with
  | zero => intro a ha; rfl
  | succ n ih =>
    intro a ha
    simp only [transpose_row]
    rw [copyBytes_out]
    · exact ih a fun x b hx hb => ha x b (by omega) hb
    · intro b hb
      exact ha n b (by omega) hb

/-- Value written by a row of `transpose`: byte `b` of the destination
element at `dp + x*(dsE*w)` holds byte `b` of the source element at
`sp + x*w`, provided consecutive destination elements do not overlap
(`w ≤ |dsE*w|`; the stride may be negative, as used by `r270`). -/
theorem transpose_row_get (w : Nat) (hw : 0 < w) (src : Mem) (dsE : Int)
    (sp dp : Int) (dst : Mem) (hD : (w : Int) ≤ |dsE * w|) :
    ∀ (W : Nat) (x b : Nat), x < W → b < w →
      transpose_row w src dsE sp dp dst W (dp + (x : Int) * (dsE * w) + b) =
        src (sp + (x : Int) * w + b) := by
  intro W
  induction W with
  | zero => intro x b hx hb; omega
  | succ n ih =>
    intro x b hx hb
    simp only [transpose_row]
    rcases Nat.lt_succ_iff_lt_or_eq.mp hx with h | rfl
    · rw [copyBytes_out]
      · exact ih x b h hb
      · intro b2 hb2 hEq
        have h2 : ((n : Int) - x) * (dsE * w) = (b : Int) - b2 := by
          linear_combination -hEq
        have h1 : (w : Int) ≤ |((n : Int) - x) * (dsE * w)| := by
          calc (w : Int) ≤ |dsE * w| := hD
            _ = 1 * |dsE * w| := by ring
            _ ≤ |(n : Int) - x| * |dsE * w| := by
                apply mul_le_mul_of_nonneg_right _ (abs_nonneg _)
                rw [abs_of_nonneg (by omega : (0 : Int) ≤ (n : Int) - x)]
                omega
            _ = |((n : Int) - x) * (dsE * w)| := (abs_mul _ _).symm
        rw [h2] at h1
        have hbb : |(b : Int) - b2| < w := abs_lt.mpr ⟨by omega, by omega⟩
        linarith
    · have haddr : dp + (x : Int) * (dsE * w) + b =
          (dp + (x : Int) * (dsE * w)) + (b : Int) := by ring
      rw [haddr, copyBytes_at w src _ _ _ b hb]

/-- The result of a row of `transpose` depends only on the source bytes of
that row and on the destination memory pointwise. -/
theorem transpose_row_congr (w : Nat) (src1 src2 : Mem) (dsE : Int) (sp dp : Int) :
    ∀ (W : Nat) (dst1 dst2 : Mem),
      (∀ x b : Nat, x < W → b < w →
        src1 (sp + (x : Int) * w + b) = src2 (sp + (x : Int) * w + b)) →
      (∀ a, dst1 a = dst2 a) →
      ∀ a, transpose_row w src1 dsE sp dp dst1 W a =
        transpose_row w src2 dsE sp dp dst2 W a := by
  intro W
  induction W with
  | zero => intro dst1 dst2 hsrc hdst a; exact hdst a
  | succ n ih =>
    intro dst1 dst2 hsrc hdst a
    simp only [transpose_row]
    apply copyBytes_congr
    · intro b hb
      have := hsrc n b (by omega) hb
      have haddr : sp + (n : Int) * w + b = (sp + (n : Int) * w) + (b : Int) := by ring
      rw [haddr] at this
      exact this
    · exact ih dst1 dst2 (fun x b hx hb => hsrc x b (by omega) hb) hdst a

/-- A byte outside every element window written by `transpose_loop` is
unchanged.  Source row `y`, iteration `x` writes the `w` bytes at
`dp + y*w + x*(dsE*w)`. -/
theorem transpose_loop_frame (w : Nat) (src : Mem) (ssE dsE : Int) (W : Nat) :
    ∀ (h : Nat) (sp dp : Int) (dst : Mem) (a : Int),
      (∀ y x b : Nat, y < h → x < W → b < w →
        a ≠ dp + (y : Int) * w + (x : Int) * (dsE * w) + b) →
      transpose_loop w src ssE dsE W sp dp dst h a = dst a := by
  intro h
  induction h with
  | zero => intro sp dp dst a ha; rfl
  | succ n ih =>
    intro sp dp dst a ha
    simp only [transpose_loop]
    rw [ih (sp + ssE * w) (dp + w) _ a]
    · apply transpose_row_frame
      intro x b hx hb hEq
      apply ha 0 x b (by omega) hx hb
      rw [hEq]; push_cast; ring
    · intro y x b hy hx hb hEq
      apply ha (y + 1) x b (by omega) hx hb
      rw [hEq]; push_cast; ring

/-- Value written by `transpose_loop` at source row `y`, source column `x`,
byte `b`, provided the destination element stride covers all `h` source rows
(`h*w ≤ |dsE*w|`; the stride may be negative, as used by `r270`). -/
theorem transpose_loop_get (w : Nat) (hw : 0 < w) (src : Mem) (ssE dsE : Int)
    (W : Nat) :
    ∀ (h : Nat), (h : Int) * w ≤ |dsE * w| →
      ∀ (sp dp : Int) (dst : Mem) (y x b : Nat), y < h → x < W → b < w →
        transpose_loop w src ssE dsE W sp dp dst h
            (dp + (y : Int) * w + (x : Int) * (dsE * w) + b) =
          src (sp + (y : Int) * (ssE * w) + (x : Int) * w + b) := by
  intro h
  induction h with
  | zero => intro hD sp dp dst y x b hy hx hb; omega
  | succ n ih =>
    intro hD sp dp dst y x b hy hx hb
    simp only [transpose_loop]
    have hwi : (1 : Int) ≤ (w : Int) := by exact_mod_cast hw
    have habs : (0 : Int) ≤ |dsE * w| := abs_nonneg _
    cases y with
    | zero =>
      have haddr : dp + ((0 : Nat) : Int) * w + (x : Int) * (dsE * w) + b =
          dp + (x : Int) * (dsE * w) + b := by push_cast; ring
      have hval : sp + ((0 : Nat) : Int) * (ssE * w) + (x : Int) * w + b =
          sp + (x : Int) * w + b := by push_cast; ring
      rw [haddr, hval]
      rw [transpose_loop_frame w src ssE dsE W n (sp + ssE * w) (dp + w) _ _ ?frame]
      case frame =>
        intro k x2 b2 hk hx2 hb2 hEq
        by_cases hxx : x = x2
        · subst hxx
          have e2 : (w : Int) ≤ ((k : Int) + 1) * w :=
            le_mul_of_one_le_left (by positivity) (by omega)
          have hlin : ((k : Int) + 1) * w = (k : Int) * w + w := by ring
          have c3 : ((b : Int)) < w := by exact_mod_cast hb
          linarith
        · have h2 : ((x : Int) - x2) * (dsE * w) =
              ((k : Int) + 1) * w + b2 - b := by linarith
          have h1 : ((n : Int) + 1) * w ≤ |((x : Int) - x2) * (dsE * w)| := by
            calc ((n : Int) + 1) * w ≤ |dsE * w| := by push_cast at hD; linarith
              _ = 1 * |dsE * w| := by ring
              _ ≤ |(x : Int) - x2| * |dsE * w| := by
                  apply mul_le_mul_of_nonneg_right _ (abs_nonneg _)
                  rcases lt_or_gt_of_ne (fun hc : (x : Int) = x2 =>
                    hxx (by exact_mod_cast hc)) with hlt | hgt
                  · rw [abs_of_neg (by omega)]; omega
                  · rw [abs_of_pos (by omega)]; omega
              _ = |((x : Int) - x2) * (dsE * w)| := (abs_mul _ _).symm
          rw [h2] at h1
          have e1 : (k : Int) * w ≤ ((n : Int) - 1) * w :=
            mul_le_mul_of_nonneg_right (by omega) (by positivity)
          have e3 : |((k : Int) + 1) * w + b2 - b| < ((n : Int) + 1) * w := by
            rw [abs_lt]
            constructor
            · have e2 : (w : Int) ≤ ((k : Int) + 1) * w :=
                le_mul_of_one_le_left (by positivity) (by omega)
              have hlin : ((k : Int) + 1) * w = (k : Int) * w + w := by ring
              have e4 : (0 : Int) ≤ ((n : Int) + 1) * w := by positivity
              have c3 : ((b : Int)) < w := by exact_mod_cast hb
              linarith
            · have hlin : ((k : Int) + 1) * w = (k : Int) * w + w := by ring
              have hlin2 : ((n : Int) - 1) * w = (n : Int) * w - w := by ring
              have hlin3 : ((n : Int) + 1) * w = (n : Int) * w + w := by ring
              have c3 : ((b2 : Int)) < w := by exact_mod_cast hb2
              linarith
          linarith
      · exact transpose_row_get w hw src dsE sp dp dst
          (by push_cast at hD ⊢; nlinarith) W x b hx hb
    | succ y2 =>
      have haddr : dp + ((y2 + 1 : Nat) : Int) * w + (x : Int) * (dsE * w) + b =
          (dp + w) + (y2 : Int) * w + (x : Int) * (dsE * w) + b := by
        push_cast; ring
      have hval : sp + ((y2 + 1 : Nat) : Int) * (ssE * w) + (x : Int) * w + b =
          (sp + ssE * w) + (y2 : Int) * (ssE * w) + (x : Int) * w + b := by
        push_cast; ring
      rw [haddr, hval]
      apply ih ?hD (sp + ssE * w) (dp + w) _ y2 x b (by omega) hx hb
      case hD =>
        have : (n : Int) * w ≤ ((n : Int) + 1) * w := by nlinarith
        push_cast at hD; linarith

/-- The result of `transpose_loop` depends only on the visible source bytes
and on the destination memory pointwise. -/
theorem transpose_loop_congr (w : Nat) (src1 src2 : Mem) (ssE dsE : Int) (W : Nat) :
    ∀ (h : Nat) (sp dp : Int) (dst1 dst2 : Mem),
      (∀ y x b : Nat, y < h → x < W → b < w →
        src1 (sp + (y : Int) * (ssE * w) + (x : Int) * w + b) =
          src2 (sp + (y : Int) * (ssE * w) + (x : Int) * w + b)) →
      (∀ a, dst1 a = dst2 a) →
      ∀ a, transpose_loop w src1 ssE dsE W sp dp dst1 h a =
        transpose_loop w src2 ssE dsE W sp dp dst2 h a := by
  intro h
  induction h with
  | zero => intro sp dp dst1 dst2 hsrc hdst a; exact hdst a
  | succ n ih =>
    intro sp dp dst1 dst2 hsrc hdst a
    simp only [transpose_loop]
    apply ih
    · intro y x b hy hx hb
      have haddr : (sp + ssE * (w : Int)) + (y : Int) * (ssE * w) + (x : Int) * w + b =
          sp + ((y + 1 : Nat) : Int) * (ssE * w) + (x : Int) * w + b := by
        push_cast; ring
      rw [haddr]
      exact hsrc (y + 1) x b (by omega) hx hb
    · intro a2
      apply transpose_row_congr
      · intro x b hx hb
        have := hsrc 0 x b (by omega) hx hb
        have haddr : sp + ((0 : Nat) : Int) * (ssE * w) + (x : Int) * w + b =
            sp + (x : Int) * w + b := by push_cast; ring
        rw [haddr] at this
        exact this
      · exact hdst

/-- Characterization of `transpose`: the destination pixel at column `y` of
row `x` (an output of width `H` and height `W`) holds the source pixel at
column `x` of row `y`.  The destination element stride `dsE` may be negative
(as used by `r270`) as long as its magnitude covers the `H` output columns
per row. -/
theorem transpose_spec (w : Nat) (hw : 0 < w) (dst src : Mem)
    (dstBase srcBase : Int) (ssE dsE : Int) (W H : Nat)
    (hds : (H : Int) ≤ |dsE|) (y x b : Nat) (hy : y < H) (hx : x < W)
    (hb : b < w) :
    transpose w dst dstBase (dsE * w) src srcBase (ssE * w) W H
        (dstBase + (x : Int) * (dsE * w) + (y : Int) * w + b) =
      src (srcBase + (y : Int) * (ssE * w) + (x : Int) * w + b) := by
  unfold transpose
  rw [tdiv_mul_cancel w hw ssE, tdiv_mul_cancel w hw dsE]
  have hD : (H : Int) * w ≤ |dsE * w| := by
    rw [abs_mul]
    calc (H : Int) * w ≤ |dsE| * w := by
          apply mul_le_mul_of_nonneg_right hds (by positivity)
      _ = |dsE| * |(w : Int)| := by rw [abs_of_nonneg (by positivity : (0:Int) ≤ (w:Int))]
  have haddr : dstBase + (x : Int) * (dsE * w) + (y : Int) * w + b =
      dstBase + (y : Int) * w + (x : Int) * (dsE * w) + b := by ring
  rw [haddr]
  exact transpose_loop_get w hw src ssE dsE W H hD srcBase dstBase dst y x b hy hx hb

/-! ## The `vflip` loop -/

/-- A byte outside every row window written by `vflip_loop` is unchanged.
Iteration `y` copies `pitch` bytes to `dp - (y+1)*dst_stride`. -/
theorem vflip_loop_frame (src : Mem) (srcS dstS : Int) (pitch : Nat) :
    ∀ (h : Nat) (sp dp : Int) (dst : Mem) (a : Int),
      (∀ y c : Nat, y < h → c < pitch → a ≠ dp - ((y : Int) + 1) * dstS + c) →
      vflip_loop src srcS dstS pitch sp dp dst h a = dst a := by
  intro h
  induction h with
  | zero => intro sp dp dst a ha; rfl
  | succ n ih =>
    intro sp dp dst a ha
    simp only [vflip_loop]
    rw [ih (sp + srcS) (dp - dstS) _ a]
    · apply copyBytes_out
      intro c hc hEq
      apply ha 0 c (by omega) hc
      rw [hEq]; push_cast; ring
    · intro y c hy hc hEq
      apply ha (y + 1) c (by omega) hc
      rw [hEq]; push_cast; ring

/-- Value written by `vflip_loop`: iteration `y` copies the source row at
`sp + y*src_stride`, provided the destination stride covers a row. -/
theorem vflip_loop_get (src : Mem) (srcS dstS : Int) (pitch : Nat)
    (hS : (pitch : Int) ≤ dstS) :
    ∀ (h : Nat) (sp dp : Int) (dst : Mem) (y c : Nat), y < h → c < pitch →
      vflip_loop src srcS dstS pitch sp dp dst h (dp - ((y : Int) + 1) * dstS + c) =
        src (sp + (y : Int) * srcS + c) := by
  intro h
  induction h with
  | zero => intro sp dp dst y c hy hc; omega
  | succ n ih =>
    intro sp dp dst y c hy hc
    simp only [vflip_loop]
    have hci : ((c : Int)) < pitch := by exact_mod_cast hc
    have hS0 : (0 : Int) ≤ dstS := le_trans (by positivity) hS
    cases y with
    | zero =>
      have haddr : dp - (((0 : Nat) : Int) + 1) * dstS + c = (dp - dstS) + (c : Int) := by
        push_cast; ring
      have hval : sp + ((0 : Nat) : Int) * srcS + c = sp + (c : Int) := by
        push_cast; ring
      rw [haddr, hval]
      rw [vflip_loop_frame src srcS dstS pitch n (sp + srcS) (dp - dstS) _ _ ?frame]
      case frame =>
        intro k c2 hk hc2 hEq
        have e2 : dstS ≤ ((k : Int) + 1) * dstS :=
          le_mul_of_one_le_left hS0 (by omega)
        have hc2i : ((c2 : Int)) < pitch := by exact_mod_cast hc2
        linarith
      · exact copyBytes_at pitch src sp dst (dp - dstS) c hc
    | succ y2 =>
      have haddr : dp - (((y2 + 1 : Nat) : Int) + 1) * dstS + c =
          (dp - dstS) - ((y2 : Int) + 1) * dstS + c := by push_cast; ring
      have hval : sp + ((y2 + 1 : Nat) : Int) * srcS + c =
          (sp + srcS) + (y2 : Int) * srcS + c := by push_cast; ring
      rw [haddr, hval]
      exact ih (sp + srcS) (dp - dstS) _ y2 c (by omega) hc

/-- The result of `vflip_loop` depends only on the visible source rows and
on the destination memory pointwise. -/
theorem vflip_loop_congr (src1 src2 : Mem) (srcS dstS : Int) (pitch : Nat) :
    ∀ (h : Nat) (sp dp : Int) (dst1 dst2 : Mem),
      (∀ y c : Nat, y < h → c < pitch →
        src1 (sp + (y : Int) * srcS + c) = src2 (sp + (y : Int) * srcS + c)) →
      (∀ a, dst1 a = dst2 a) →
      ∀ a, vflip_loop src1 srcS dstS pitch sp dp dst1 h a =
        vflip_loop src2 srcS dstS pitch sp dp dst2 h a := by
  intro h
  induction h with
  | zero => intro sp dp dst1 dst2 hsrc hdst a; exact hdst a
  | succ n ih =>
    intro sp dp dst1 dst2 hsrc hdst a
    simp only [vflip_loop]
    apply ih
    · intro y c hy hc
      have haddr : (sp + srcS) + (y : Int) * srcS + c =
          sp + ((y + 1 : Nat) : Int) * srcS + c := by push_cast; ring
      rw [haddr]
      exact hsrc (y + 1) c (by omega) hc
    · intro a2
      apply copyBytes_congr
      · intro c hc
        have := hsrc 0 c (by omega) hc
        have haddr : sp + ((0 : Nat) : Int) * srcS + c = sp + (c : Int) := by
          push_cast; ring
        rw [haddr] at this
        exact this
      · exact hdst a2

/-- On the element sizes used by orient.c, `width << ctz w` is the visible
row size in bytes. -/
theorem shl_ctz (W w : Nat) (hw : w = 1 ∨ w = 2 ∨ w = 4) :
    W <<< ctz w = W * w := by
  rcases hw with rfl | rfl | rfl <;>
    simp [ctz, ctzAux, Nat.shiftLeft_eq]

/-- Characterization of `vflip` (byte-granular): destination row `H - 1 - y`
holds source row `y`, provided the destination stride covers the visible
pitch. -/
theorem vflip_spec (dst src : Mem) (dstBase srcBase : Int) (srcS dstS : Int)
    (W H ord : Nat) (hS : ((W <<< ord : Nat) : Int) ≤ dstS)
    (y c : Nat) (hy : y < H) (hc : c < W <<< ord) :
    vflip dst dstBase dstS src srcBase srcS W H ord
        (dstBase + ((H - 1 - y : Nat) : Int) * dstS + c) =
      src (srcBase + (y : Int) * srcS + c) := by
  unfold vflip
  have haddr : dstBase + ((H - 1 - y : Nat) : Int) * dstS + c =
      (dstBase + dstS * (H : Int)) - ((y : Int) + 1) * dstS + c := by
    have hcast : ((H - 1 - y : Nat) : Int) = (H : Int) - 1 - y := by omega
    rw [hcast]; ring
  rw [haddr]
  exact vflip_loop_get src srcS dstS (W <<< ord) hS H srcBase _ dst y c hy hc

/-- Bound for the byte offset of an element within a visible row. -/
theorem slot_lt (x W b w : Nat) (hx : x < W) (hb : b < w) : x * w + b < W * w := by
  calc x * w + b < x * w + w := by omega
    _ = (x + 1) * w := by ring
    _ ≤ W * w := Nat.mul_le_mul_right w hx

/-- Regions with zero rows or zero row bytes are empty. -/
theorem inRegion_empty (base stride : Int) (rows rowBytes : Nat) (a : Int)
    (h : rows = 0 ∨ rowBytes = 0) : ¬ inRegion base stride rows rowBytes a := by
  rintro ⟨y, c, hy, hc, _⟩
  omega

/-! ## Write footprints of the primitives -/

/-- `hflip` writes no byte outside the visible destination region. -/
theorem hflip_frame (w : Nat) (hw : 0 < w) (dst src : Mem)
    (dstBase srcBase : Int) (ssE dsE : Int) (W H : Nat) (a : Int)
    (ha : ¬ inRegion dstBase (dsE * w) H (W * w) a) :
    hflip w dst dstBase (dsE * w) src srcBase (ssE * w) W H a = dst a := by
  unfold hflip
  rw [tdiv_mul_cancel w hw ssE, tdiv_mul_cancel w hw dsE]
  apply hflip_loop_frame
  intro y x b hy hx hb hEq
  apply ha
  refine ⟨y, (W - 1 - x) * w + b, hy, slot_lt _ _ _ _ (by omega) hb, ?_⟩
  rw [hEq]
  push_cast
  rw [show ((W - 1 - x : Nat) : Int) = (W : Int) - 1 - x from by omega]
  ring

/-- `vflip_w` writes no byte outside the visible destination region. -/
theorem vflip_w_frame (w : Nat) (hw : w = 1 ∨ w = 2 ∨ w = 4) (dst src : Mem)
    (dstBase srcBase : Int) (srcS dstS : Int) (W H : Nat) (a : Int)
    (ha : ¬ inRegion dstBase dstS H (W * w) a) :
    vflip_w w dst dstBase dstS src srcBase srcS W H a = dst a := by
  unfold vflip_w vflip
  apply vflip_loop_frame
  intro y c hy hc hEq
  apply ha
  refine ⟨H - 1 - y, c, by omega, by rwa [shl_ctz W w hw] at hc, ?_⟩
  rw [hEq]
  rw [show ((H - 1 - y : Nat) : Int) = (H : Int) - 1 - y from by omega]
  ring

/-- `r180` writes no byte outside the visible destination region. -/
theorem r180_frame (w : Nat) (hw : 0 < w) (dst src : Mem)
    (dstBase srcBase : Int) (ssE dsE : Int) (W H : Nat) (a : Int)
    (ha : ¬ inRegion dstBase (dsE * w) H (W * w) a) :
    r180 w dst dstBase (dsE * w) src srcBase (ssE * w) W H a = dst a := by
  unfold r180
  rw [show -(ssE * (w : Int)) = (-ssE) * w from by ring]
  exact hflip_frame w hw dst src dstBase _ (-ssE) dsE W H a ha

/-- `transpose` writes no byte outside the visible destination region (of
`W` rows of `H` elements). -/
theorem transpose_frame (w : Nat) (hw : 0 < w) (dst src : Mem)
    (dstBase srcBase : Int) (ssE dsE : Int) (W H : Nat) (a : Int)
    (ha : ¬ inRegion dstBase (dsE * w) W (H * w) a) :
    transpose w dst dstBase (dsE * w) src srcBase (ssE * w) W H a = dst a := by
  unfold transpose
  rw [tdiv_mul_cancel w hw ssE, tdiv_mul_cancel w hw dsE]
  apply transpose_loop_frame
  intro y x b hy hx hb hEq
  apply ha
  refine ⟨x, y * w + b, hx, slot_lt _ _ _ _ hy hb, ?_⟩
  rw [hEq]
  push_cast
  ring

/-- `r90` writes no byte outside the visible destination region. -/
theorem r90_frame (w : Nat) (hw : 0 < w) (dst src : Mem)
    (dstBase srcBase : Int) (ssE dsE : Int) (W H : Nat) (a : Int)
    (ha : ¬ inRegion dstBase (dsE * w) W (H * w) a) :
    r90 w dst dstBase (dsE * w) src srcBase (ssE * w) W H a = dst a := by
  unfold r90
  rw [show -(ssE * (w : Int)) = (-ssE) * w from by ring]
  exact transpose_frame w hw dst src dstBase _ (-ssE) dsE W H a ha

/-- `r270` writes no byte outside the visible destination region. -/
theorem r270_frame (w : Nat) (hw : 0 < w) (dst src : Mem)
    (dstBase srcBase : Int) (ssE dsE : Int) (W H : Nat) (a : Int)
    (ha : ¬ inRegion dstBase (dsE * w) W (H * w) a) :
    r270 w dst dstBase (dsE * w) src srcBase (ssE * w) W H a = dst a := by
  unfold r270 transpose
  rw [show -(dsE * (w : Int)) = (-dsE) * w from by ring]
  rw [tdiv_mul_cancel w hw ssE, tdiv_mul_cancel w hw (-dsE)]
  apply transpose_loop_frame
  intro y x b hy hx hb hEq
  apply ha
  refine ⟨W - 1 - x, y * w + b, by omega, slot_lt _ _ _ _ hy hb, ?_⟩
  rw [hEq]
  push_cast
  rw [show ((W - 1 - x : Nat) : Int) = (W : Int) - 1 - x from by omega]
  ring

/-- `antitranspose` writes no byte outside the visible destination region. -/
theorem antitranspose_frame (w : Nat) (hw : 0 < w) (dst src : Mem)
    (dstBase srcBase : Int) (ssE dsE : Int) (W H : Nat) (a : Int)
    (ha : ¬ inRegion dstBase (dsE * w) W (H * w) a) :
    antitranspose w dst dstBase (dsE * w) src srcBase (ssE * w) W H a = dst a := by
  unfold antitranspose
  rw [show -(ssE * (w : Int)) = (-ssE) * w from by ring]
  exact r270_frame w hw dst src dstBase _ (-ssE) dsE W H a ha

/-! ## Read footprints of the primitives -/

/-- `hflip` reads no source byte outside the visible source region. -/
theorem hflip_congr (w : Nat) (hw : 0 < w) (dst : Mem) (src1 src2 : Mem)
    (dstBase srcBase : Int) (ssE dsE : Int) (W H : Nat)
    (hsrc : ∀ a, inRegion srcBase (ssE * w) H (W * w) a → src1 a = src2 a) :
    ∀ a, hflip w dst dstBase (dsE * w) src1 srcBase (ssE * w) W H a =
      hflip w dst dstBase (dsE * w) src2 srcBase (ssE * w) W H a := by
  intro a
  unfold hflip
  rw [tdiv_mul_cancel w hw ssE, tdiv_mul_cancel w hw dsE]
  apply hflip_loop_congr
  · intro y x b hy hx hb
    apply hsrc
    refine ⟨y, x * w + b, hy, slot_lt _ _ _ _ hx hb, by push_cast; ring⟩
  · intro a2; rfl

/-- `vflip_w` reads no source byte outside the visible source region. -/
theorem vflip_w_congr (w : Nat) (hw : w = 1 ∨ w = 2 ∨ w = 4) (dst : Mem)
    (src1 src2 : Mem) (dstBase srcBase : Int) (srcS dstS : Int) (W H : Nat)
    (hsrc : ∀ a, inRegion srcBase srcS H (W * w) a → src1 a = src2 a) :
    ∀ a, vflip_w w dst dstBase dstS src1 srcBase srcS W H a =
      vflip_w w dst dstBase dstS src2 srcBase srcS W H a := by
  intro a
  unfold vflip_w vflip
  apply vflip_loop_congr
  · intro y c hy hc
    apply hsrc
    exact ⟨y, c, hy, by rwa [shl_ctz W w hw] at hc, rfl⟩
  · intro a2; rfl

/-- `r180` reads no source byte outside the visible source region. -/
theorem r180_congr (w : Nat) (hw : 0 < w) (dst : Mem) (src1 src2 : Mem)
    (dstBase srcBase : Int) (ssE dsE : Int) (W H : Nat)
    (hsrc : ∀ a, inRegion srcBase (ssE * w) H (W * w) a → src1 a = src2 a) :
    ∀ a, r180 w dst dstBase (dsE * w) src1 srcBase (ssE * w) W H a =
      r180 w dst dstBase (dsE * w) src2 srcBase (ssE * w) W H a := by
  intro a
  unfold r180 hflip
  rw [show -(ssE * (w : Int)) = (-ssE) * w from by ring]
  rw [tdiv_mul_cancel w hw (-ssE), tdiv_mul_cancel w hw dsE]
  apply hflip_loop_congr
  · intro y x b hy hx hb
    apply hsrc
    refine ⟨H - 1 - y, x * w + b, by omega, slot_lt _ _ _ _ hx hb, ?_⟩
    push_cast
    rw [show ((H - 1 - y : Nat) : Int) = (H : Int) - 1 - y from by omega]
    ring
  · intro a2; rfl

/-- `transpose` reads no source byte outside the visible source region. -/
theorem transpose_congr (w : Nat) (hw : 0 < w) (dst : Mem) (src1 src2 : Mem)
    (dstBase srcBase : Int) (ssE dsE : Int) (W H : Nat)
    (hsrc : ∀ a, inRegion srcBase (ssE * w) H (W * w) a → src1 a = src2 a) :
    ∀ a, transpose w dst dstBase (dsE * w) src1 srcBase (ssE * w) W H a =
      transpose w dst dstBase (dsE * w) src2 srcBase (ssE * w) W H a := by
  intro a
  unfold transpose
  rw [tdiv_mul_cancel w hw ssE, tdiv_mul_cancel w hw dsE]
  apply transpose_loop_congr
  · intro y x b hy hx hb
    apply hsrc
    refine ⟨y, x * w + b, hy, slot_lt _ _ _ _ hx hb, by push_cast; ring⟩
  · intro a2; rfl

/-- `r90` reads no source byte outside the visible source region. -/
theorem r90_congr (w : Nat) (hw : 0 < w) (dst : Mem) (src1 src2 : Mem)
    (dstBase srcBase : Int) (ssE dsE : Int) (W H : Nat)
    (hsrc : ∀ a, inRegion srcBase (ssE * w) H (W * w) a → src1 a = src2 a) :
    ∀ a, r90 w dst dstBase (dsE * w) src1 srcBase (ssE * w) W H a =
      r90 w dst dstBase (dsE * w) src2 srcBase (ssE * w) W H a := by
  intro a
  unfold r90 transpose
  rw [show -(ssE * (w : Int)) = (-ssE) * w from by ring]
  rw [tdiv_mul_cancel w hw (-ssE), tdiv_mul_cancel w hw dsE]
  apply transpose_loop_congr
  · intro y x b hy hx hb
    apply hsrc
    refine ⟨H - 1 - y, x * w + b, by omega, slot_lt _ _ _ _ hx hb, ?_⟩
    push_cast
    rw [show ((H - 1 - y : Nat) : Int) = (H : Int) - 1 - y from by omega]
    ring
  · intro a2; rfl

/-- `r270` reads no source byte outside the visible source region. -/
theorem r270_congr (w : Nat) (hw : 0 < w) (dst : Mem) (src1 src2 : Mem)
    (dstBase srcBase : Int) (ssE dsE : Int) (W H : Nat)
    (hsrc : ∀ a, inRegion srcBase (ssE * w) H (W * w) a → src1 a = src2 a) :
    ∀ a, r270 w dst dstBase (dsE * w) src1 srcBase (ssE * w) W H a =
      r270 w dst dstBase (dsE * w) src2 srcBase (ssE * w) W H a := by
  intro a
  unfold r270 transpose
  rw [show -(dsE * (w : Int)) = (-dsE) * w from by ring]
  rw [tdiv_mul_cancel w hw ssE, tdiv_mul_cancel w hw (-dsE)]
  apply transpose_loop_congr
  · intro y x b hy hx hb
    apply hsrc
    refine ⟨y, x * w + b, hy, slot_lt _ _ _ _ hx hb, by push_cast; ring⟩
  · intro a2; rfl

/-- `antitranspose` reads no source byte outside the visible source region. -/
theorem antitranspose_congr (w : Nat) (hw : 0 < w) (dst : Mem) (src1 src2 : Mem)
    (dstBase srcBase : Int) (ssE dsE : Int) (W H : Nat)
    (hsrc : ∀ a, inRegion srcBase (ssE * w) H (W * w) a → src1 a = src2 a) :
    ∀ a, antitranspose w dst dstBase (dsE * w) src1 srcBase (ssE * w) W H a =
      antitranspose w dst dstBase (dsE * w) src2 srcBase (ssE * w) W H a := by
  intro a
  unfold antitranspose r270 transpose
  rw [show -(ssE * (w : Int)) = (-ssE) * w from by ring]
  rw [show -(dsE * (w : Int)) = (-dsE) * w from by ring]
  rw [tdiv_mul_cancel w hw (-ssE), tdiv_mul_cancel w hw (-dsE)]
  apply transpose_loop_congr
  · intro y x b hy hx hb
    apply hsrc
    refine ⟨H - 1 - y, x * w + b, by omega, slot_lt _ _ _ _ hx hb, ?_⟩
    push_cast
    rw [show ((H - 1 - y : Nat) : Int) = (H : Int) - 1 - y from by omega]
    ring
  · intro a2; rfl

/-! ## The composed transforms -/

/-- Characterization of `r180` via `hflip` applied to the source read
bottom-up: `dst[y][x] = src[H-1-y][W-1-x]` bytewise. -/
theorem r180_spec (w : Nat) (hw : 0 < w) (dst src : Mem) (dstBase srcBase : Int)
    (ssE dsE : Int) (W H : Nat) (hds : (W : Int) ≤ dsE) (y x b : Nat)
    (hy : y < H) (hx : x < W) (hb : b < w) :
    r180 w dst dstBase (dsE * w) src srcBase (ssE * w) W H
        (dstBase + (y : Int) * (dsE * w) + (x : Int) * w + b) =
      src (srcBase + ((H - 1 - y : Nat) : Int) * (ssE * w) +
        ((W - 1 - x : Nat) : Int) * w + b) := by
  unfold r180
  have hneg : -(ssE * (w : Int)) = (-ssE) * w := by ring
  rw [hneg]
  rw [hflip_spec w hw dst src dstBase (srcBase + ((H : Int) - 1) * (ssE * w))
    (-ssE) dsE W H hds y x b hy hx hb]
  congr 1
  have hcast : ((H - 1 - y : Nat) : Int) = (H : Int) - 1 - y := by omega
  rw [hcast]
  ring

/-- Characterization of `r90` via `transpose` of the source read bottom-up:
`dst[x][y] = src[H-1-y][x]` bytewise (destination width `H`, height `W`). -/
theorem r90_spec (w : Nat) (hw : 0 < w) (dst src : Mem) (dstBase srcBase : Int)
    (ssE dsE : Int) (W H : Nat) (hds : (H : Int) ≤ dsE) (y x b : Nat)
    (hy : y < H) (hx : x < W) (hb : b < w) :
    r90 w dst dstBase (dsE * w) src srcBase (ssE * w) W H
        (dstBase + (x : Int) * (dsE * w) + (y : Int) * w + b) =
      src (srcBase + ((H - 1 - y : Nat) : Int) * (ssE * w) + (x : Int) * w + b) := by
  unfold r90
  have hneg : -(ssE * (w : Int)) = (-ssE) * w := by ring
  rw [hneg]
  rw [transpose_spec w hw dst src dstBase (srcBase + ((H : Int) - 1) * (ssE * w))
    (-ssE) dsE W H (le_trans hds (le_abs_self _)) y x b hy hx hb]
  congr 1
  have hcast : ((H - 1 - y : Nat) : Int) = (H : Int) - 1 - y := by omega
  rw [hcast]
  ring

/-- Characterization of `r270` via `transpose` written bottom-up into the
destination: `dst[x][y] = src[y][W-1-x]` bytewise (destination width `H`,
height `W`). -/
theorem r270_spec (w : Nat) (hw : 0 < w) (dst src : Mem) (dstBase srcBase : Int)
    (ssE dsE : Int) (W H : Nat) (hds : (H : Int) ≤ dsE) (y x b : Nat)
    (hy : y < H) (hx : x < W) (hb : b < w) :
    r270 w dst dstBase (dsE * w) src srcBase (ssE * w) W H
        (dstBase + (x : Int) * (dsE * w) + (y : Int) * w + b) =
      src (srcBase + (y : Int) * (ssE * w) + ((W - 1 - x : Nat) : Int) * w + b) := by
  unfold r270
  have hneg : -(dsE * (w : Int)) = (-dsE) * w := by ring
  rw [hneg]
  have haddr : dstBase + (x : Int) * (dsE * w) + (y : Int) * w + b =
      (dstBase + ((W : Int) - 1) * (dsE * w)) +
        ((W - 1 - x : Nat) : Int) * ((-dsE) * w) + (y : Int) * w + b := by
    have hcast : ((W - 1 - x : Nat) : Int) = (W : Int) - 1 - x := by omega
    rw [hcast]; ring
  rw [haddr]
  exact transpose_spec w hw dst src _ srcBase ssE (-dsE) W H
    (by rw [abs_neg]; exact le_trans hds (le_abs_self _)) y (W - 1 - x) b hy
    (by omega) hb

/-- Characterization of `antitranspose` via `r270` of the source read
bottom-up: `dst[x][y] = src[H-1-y][W-1-x]` bytewise (destination width `H`,
height `W`). -/
theorem antitranspose_spec (w : Nat) (hw : 0 < w) (dst src : Mem)
    (dstBase srcBase : Int) (ssE dsE : Int) (W H : Nat) (hds : (H : Int) ≤ dsE)
    (y x b : Nat) (hy : y < H) (hx : x < W) (hb : b < w) :
    antitranspose w dst dstBase (dsE * w) src srcBase (ssE * w) W H
        (dstBase + (x : Int) * (dsE * w) + (y : Int) * w + b) =
      src (srcBase + ((H - 1 - y : Nat) : Int) * (ssE * w) +
        ((W - 1 - x : Nat) : Int) * w + b) := by
  unfold antitranspose
  have hneg : -(ssE * (w : Int)) = (-ssE) * w := by ring
  rw [hneg]
  rw [r270_spec w hw dst src dstBase (srcBase + ((H : Int) - 1) * (ssE * w))
    (-ssE) dsE W H hds y x b hy hx hb]
  congr 1
  have hcast : ((H - 1 - y : Nat) : Int) = (H : Int) - 1 - y := by omega
  rw [hcast]
  ring

/-! ## Claim theorems C1, C2, C3 -/

/-- C1: for every element width w ∈ {1,2,4} bytes, all dimensions, and
strides that are multiples of w and at least the visible row size, each
derived transform implemented by negative-stride composition equals its
explicit index formula: `r180` satisfies `dst[y][x] = src[H-1-y][W-1-x]`,
`r90` satisfies `dst[x][y] = src[H-1-y][x]`, `r270` satisfies
`dst[x][y] = src[y][W-1-x]`, and `antitranspose` satisfies
`dst[x][y] = src[H-1-y][W-1-x]`, for every in-bounds position (bytewise;
strides appear as `e * w`, so that a stride is a multiple of `w` exactly
when it has this form). -/
theorem claim_C1 :
    (∀ (w : Nat), w = 1 ∨ w = 2 ∨ w = 4 →
      ∀ (dst src : Mem) (dstBase srcBase ssE dsE : Int) (W H : Nat),
        (W : Int) ≤ dsE → (W : Int) ≤ ssE →
        ∀ (y x b : Nat), y < H → x < W → b < w →
          r180 w dst dstBase (dsE * w) src srcBase (ssE * w) W H
              (dstBase + (y : Int) * (dsE * w) + (x : Int) * w + b) =
            src (srcBase + ((H - 1 - y : Nat) : Int) * (ssE * w) +
              ((W - 1 - x : Nat) : Int) * w + b)) ∧
    (∀ (w : Nat), w = 1 ∨ w = 2 ∨ w = 4 →
      ∀ (dst src : Mem) (dstBase srcBase ssE dsE : Int) (W H : Nat),
        (H : Int) ≤ dsE → (W : Int) ≤ ssE →
        ∀ (y x b : Nat), y < H → x < W → b < w →
          r90 w dst dstBase (dsE * w) src srcBase (ssE * w) W H
              (dstBase + (x : Int) * (dsE * w) + (y : Int) * w + b) =
            src (srcBase + ((H - 1 - y : Nat) : Int) * (ssE * w) +
              (x : Int) * w + b)) ∧
    (∀ (w : Nat), w = 1 ∨ w = 2 ∨ w = 4 →
      ∀ (dst src : Mem) (dstBase srcBase ssE dsE : Int) (W H : Nat),
        (H : Int) ≤ dsE → (W : Int) ≤ ssE →
        ∀ (y x b : Nat), y < H → x < W → b < w →
          r270 w dst dstBase (dsE * w) src srcBase (ssE * w) W H
              (dstBase + (x : Int) * (dsE * w) + (y : Int) * w + b) =
            src (srcBase + (y : Int) * (ssE * w) +
              ((W - 1 - x : Nat) : Int) * w + b)) ∧
    (∀ (w : Nat), w = 1 ∨ w = 2 ∨ w = 4 →
      ∀ (dst src : Mem) (dstBase srcBase ssE dsE : Int) (W H : Nat),
        (H : Int) ≤ dsE → (W : Int) ≤ ssE →
        ∀ (y x b : Nat), y < H → x < W → b < w →
          antitranspose w dst dstBase (dsE * w) src srcBase (ssE * w) W H
              (dstBase + (x : Int) * (dsE * w) + (y : Int) * w + b) =
            src (srcBase + ((H - 1 - y : Nat) : Int) * (ssE * w) +
              ((W - 1 - x : Nat) : Int) * w + b)) := by
  refine ⟨?_, ?_, ?_, ?_⟩
  · intro w hw dst src dstBase srcBase ssE dsE W H hds hss y x b hy hx hb
    exact r180_spec w (by omega) dst src dstBase srcBase ssE dsE W H hds y x b hy hx hb
  · intro w hw dst src dstBase srcBase ssE dsE W H hds hss y x b hy hx hb
    exact r90_spec w (by omega) dst src dstBase srcBase ssE dsE W H hds y x b hy hx hb
  · intro w hw dst src dstBase srcBase ssE dsE W H hds hss y x b hy hx hb
    exact r270_spec w (by omega) dst src dstBase srcBase ssE dsE W H hds y x b hy hx hb
  · intro w hw dst src dstBase srcBase ssE dsE W H hds hss y x b hy hx hb
    exact antitranspose_spec w (by omega) dst src dstBase srcBase ssE dsE W H hds y x b
      hy hx hb

/-- Witness for C1: each of the four composed transforms evaluated at a
concrete in-bounds position of a concrete 2-by-2 byte plane, with every
hypothesis discharged at that input. -/
theorem claim_C1_witness :
    (((1 : Nat) = 1 ∨ (1 : Nat) = 2 ∨ (1 : Nat) = 4) ∧ ((2 : Nat) : Int) ≤ 2 ∧
      (0 : Nat) < 2 ∧ (1 : Nat) < 2 ∧ (0 : Nat) < 1) ∧
    r180 1 (fun _ => 0) 0 (2 * ((1 : Nat) : Int)) (listMem [1, 2, 3, 4]) 0
        (2 * ((1 : Nat) : Int)) 2 2
        (0 + ((0 : Nat) : Int) * (2 * ((1 : Nat) : Int)) +
          ((1 : Nat) : Int) * ((1 : Nat) : Int) + ((0 : Nat) : Int)) =
      listMem [1, 2, 3, 4]
        (0 + ((2 - 1 - 0 : Nat) : Int) * (2 * ((1 : Nat) : Int)) +
          ((2 - 1 - 1 : Nat) : Int) * ((1 : Nat) : Int) + ((0 : Nat) : Int)) ∧
    r90 1 (fun _ => 0) 0 (2 * ((1 : Nat) : Int)) (listMem [1, 2, 3, 4]) 0
        (2 * ((1 : Nat) : Int)) 2 2
        (0 + ((1 : Nat) : Int) * (2 * ((1 : Nat) : Int)) +
          ((0 : Nat) : Int) * ((1 : Nat) : Int) + ((0 : Nat) : Int)) =
      listMem [1, 2, 3, 4]
        (0 + ((2 - 1 - 0 : Nat) : Int) * (2 * ((1 : Nat) : Int)) +
          ((1 : Nat) : Int) * ((1 : Nat) : Int) + ((0 : Nat) : Int)) ∧
    r270 1 (fun _ => 0) 0 (2 * ((1 : Nat) : Int)) (listMem [1, 2, 3, 4]) 0
        (2 * ((1 : Nat) : Int)) 2 2
        (0 + ((1 : Nat) : Int) * (2 * ((1 : Nat) : Int)) +
          ((0 : Nat) : Int) * ((1 : Nat) : Int) + ((0 : Nat) : Int)) =
      listMem [1, 2, 3, 4]
        (0 + ((0 : Nat) : Int) * (2 * ((1 : Nat) : Int)) +
          ((2 - 1 - 1 : Nat) : Int) * ((1 : Nat) : Int) + ((0 : Nat) : Int)) ∧
    antitranspose 1 (fun _ => 0) 0 (2 * ((1 : Nat) : Int)) (listMem [1, 2, 3, 4]) 0
        (2 * ((1 : Nat) : Int)) 2 2
        (0 + ((1 : Nat) : Int) * (2 * ((1 : Nat) : Int)) +
          ((0 : Nat) : Int) * ((1 : Nat) : Int) + ((0 : Nat) : Int)) =
      listMem [1, 2, 3, 4]
        (0 + ((2 - 1 - 0 : Nat) : Int) * (2 * ((1 : Nat) : Int)) +
          ((2 - 1 - 1 : Nat) : Int) * ((1 : Nat) : Int) + ((0 : Nat) : Int)) :=
  ⟨by decide,
    claim_C1.1 1 (by decide) (fun _ => 0) (listMem [1, 2, 3, 4]) 0 0 2 2 2 2
      (by decide) (by decide) 0 1 0 (by decide) (by decide) (by decide),
    claim_C1.2.1 1 (by decide) (fun _ => 0) (listMem [1, 2, 3, 4]) 0 0 2 2 2 2
      (by decide) (by decide) 0 1 0 (by decide) (by decide) (by decide),
    claim_C1.2.2.1 1 (by decide) (fun _ => 0) (listMem [1, 2, 3, 4]) 0 0 2 2 2 2
      (by decide) (by decide) 0 1 0 (by decide) (by decide) (by decide),
    claim_C1.2.2.2 1 (by decide) (fun _ => 0) (listMem [1, 2, 3, 4]) 0 0 2 2 2 2
      (by decide) (by decide) 0 1 0 (by decide) (by decide) (by decide)⟩

/-- C2: for every element width w ∈ {1,2,4} bytes, all dimensions, and
strides that are multiples of w (written `e * w`) and at least the visible
row size, `hflip` writes `dst[row][x] = src[row][width-1-x]` for every
in-bounds position (bytewise); in particular, with width 4, height 1,
element size 1 and source row bytes [1,2,3,4], the output row is
[4,3,2,1]. -/
theorem claim_C2 :
    (∀ (w : Nat), w = 1 ∨ w = 2 ∨ w = 4 →
      ∀ (dst src : Mem) (dstBase srcBase ssE dsE : Int) (W H : Nat),
        (W : Int) ≤ dsE → (W : Int) ≤ ssE →
        ∀ (y x b : Nat), y < H → x < W → b < w →
          hflip w dst dstBase (dsE * w) src srcBase (ssE * w) W H
              (dstBase + (y : Int) * (dsE * w) + (x : Int) * w + b) =
            src (srcBase + (y : Int) * (ssE * w) +
              ((W - 1 - x : Nat) : Int) * w + b)) ∧
    ((hflip 1 (fun _ => 0) 0 4 (listMem [1, 2, 3, 4]) 0 4 4 1) 0 = 4 ∧
      (hflip 1 (fun _ => 0) 0 4 (listMem [1, 2, 3, 4]) 0 4 4 1) 1 = 3 ∧
      (hflip 1 (fun _ => 0) 0 4 (listMem [1, 2, 3, 4]) 0 4 4 1) 2 = 2 ∧
      (hflip 1 (fun _ => 0) 0 4 (listMem [1, 2, 3, 4]) 0 4 4 1) 3 = 1) := by
  constructor
  · intro w hw dst src dstBase srcBase ssE dsE W H hds hss y x b hy hx hb
    exact hflip_spec w (by omega) dst src dstBase srcBase ssE dsE W H hds y x b hy hx hb
  · decide

/-- Witness for C2: the universal part evaluated at a concrete in-bounds
position of a concrete 4-by-1 byte row, with every hypothesis discharged at
that input. -/
theorem claim_C2_witness :
    (((1 : Nat) = 1 ∨ (1 : Nat) = 2 ∨ (1 : Nat) = 4) ∧ ((4 : Nat) : Int) ≤ 4 ∧
      (0 : Nat) < 1 ∧ (3 : Nat) < 4 ∧ (0 : Nat) < 1) ∧
    hflip 1 (fun _ => 0) 0 (4 * ((1 : Nat) : Int)) (listMem [1, 2, 3, 4]) 0
        (4 * ((1 : Nat) : Int)) 4 1
        (0 + ((0 : Nat) : Int) * (4 * ((1 : Nat) : Int)) +
          ((3 : Nat) : Int) * ((1 : Nat) : Int) + ((0 : Nat) : Int)) =
      listMem [1, 2, 3, 4]
        (0 + ((0 : Nat) : Int) * (4 * ((1 : Nat) : Int)) +
          ((4 - 1 - 3 : Nat) : Int) * ((1 : Nat) : Int) + ((0 : Nat) : Int)) :=
  ⟨by decide,
    claim_C2.1 1 (by decide) (fun _ => 0) (listMem [1, 2, 3, 4]) 0 0 4 4 4 1
      (by decide) (by decide) 0 3 0 (by decide) (by decide) (by decide)⟩

/-- C3: for every element width w ∈ {1,2,4} bytes, all dimensions, and
strides that are multiples of w (written `e * w`) and at least the
respective visible row size (`src_height * w` for the destination of this
swap-class transform, `src_width * w` for the source), `transpose` writes
`dst[x][y] = src[y][x]` for every in-bounds position (bytewise), producing
an output of width `src_height` and height `src_width`; in particular the
3-by-2 source [[1,2,3],[4,5,6]] yields the 2-by-3 output
[[1,4],[2,5],[3,6]]. -/
theorem claim_C3 :
    (∀ (w : Nat), w = 1 ∨ w = 2 ∨ w = 4 →
      ∀ (dst src : Mem) (dstBase srcBase ssE dsE : Int) (W H : Nat),
        (H : Int) ≤ dsE → (W : Int) ≤ ssE →
        ∀ (y x b : Nat), y < H → x < W → b < w →
          transpose w dst dstBase (dsE * w) src srcBase (ssE * w) W H
              (dstBase + (x : Int) * (dsE * w) + (y : Int) * w + b) =
            src (srcBase + (y : Int) * (ssE * w) + (x : Int) * w + b)) ∧
    ((transpose 1 (fun _ => 0) 0 2 (listMem [1, 2, 3, 4, 5, 6]) 0 3 3 2) 0 = 1 ∧
      (transpose 1 (fun _ => 0) 0 2 (listMem [1, 2, 3, 4, 5, 6]) 0 3 3 2) 1 = 4 ∧
      (transpose 1 (fun _ => 0) 0 2 (listMem [1, 2, 3, 4, 5, 6]) 0 3 3 2) 2 = 2 ∧
      (transpose 1 (fun _ => 0) 0 2 (listMem [1, 2, 3, 4, 5, 6]) 0 3 3 2) 3 = 5 ∧
      (transpose 1 (fun _ => 0) 0 2 (listMem [1, 2, 3, 4, 5, 6]) 0 3 3 2) 4 = 3 ∧
      (transpose 1 (fun _ => 0) 0 2 (listMem [1, 2, 3, 4, 5, 6]) 0 3 3 2) 5 = 6) := by
  constructor
  · intro w hw dst src dstBase srcBase ssE dsE W H hds hss y x b hy hx hb
    exact transpose_spec w (by omega) dst src dstBase srcBase ssE dsE W H
      (le_trans hds (le_abs_self _)) y x b hy hx hb
  · decide

/-- Witness for C3: the universal part evaluated at a concrete in-bounds
position of a concrete 3-by-2 byte plane, with every hypothesis discharged
at that input. -/
theorem claim_C3_witness :
    (((1 : Nat) = 1 ∨ (1 : Nat) = 2 ∨ (1 : Nat) = 4) ∧ ((2 : Nat) : Int) ≤ 2 ∧
      ((3 : Nat) : Int) ≤ 3 ∧ (1 : Nat) < 2 ∧ (2 : Nat) < 3 ∧ (0 : Nat) < 1) ∧
    transpose 1 (fun _ => 0) 0 (2 * ((1 : Nat) : Int)) (listMem [1, 2, 3, 4, 5, 6]) 0
        (3 * ((1 : Nat) : Int)) 3 2
        (0 + ((2 : Nat) : Int) * (2 * ((1 : Nat) : Int)) +
          ((1 : Nat) : Int) * ((1 : Nat) : Int) + ((0 : Nat) : Int)) =
      listMem [1, 2, 3, 4, 5, 6]
        (0 + ((1 : Nat) : Int) * (3 * ((1 : Nat) : Int)) +
          ((2 : Nat) : Int) * ((1 : Nat) : Int) + ((0 : Nat) : Int)) :=
  ⟨by decide,
    claim_C3.1 1 (by decide) (fun _ => 0) (listMem [1, 2, 3, 4, 5, 6]) 0 0 3 2 3 2
      (by decide) (by decide) 1 2 0 (by decide) (by decide) (by decide)⟩

/-! ## Claim theorems C4 and C10 (the Mouse mapping) -/

/-- C4: for every configured non-identity transform kind and every
destination-space input, `Mouse` returns exactly the coordinates of the spec
table: HFLIP (dw-1-dx, dy), VFLIP (dx, dh-1-dy), R180 (dw-1-dx, dh-1-dy),
TRANSPOSE (dy, dx), R90 (dy, dw-1-dx), R270 (dh-1-dy, dx), ANTITRANSPOSE
(dh-1-dy, dw-1-dx); in particular HFLIP with dw=100, dh=50 maps (10,5) to
(89,5). -/
theorem claim_C4 :
    (∀ (dw dh : Int) (m mold : vlc_mouse_t),
      Mouse .TRANSFORM_HFLIP dw dh m mold =
        some ({ m with i_x := dw - 1 - m.i_x, i_y := m.i_y }, VLC_SUCCESS)) ∧
    (∀ (dw dh : Int) (m mold : vlc_mouse_t),
      Mouse .TRANSFORM_VFLIP dw dh m mold =
        some ({ m with i_x := m.i_x, i_y := dh - 1 - m.i_y }, VLC_SUCCESS)) ∧
    (∀ (dw dh : Int) (m mold : vlc_mouse_t),
      Mouse .TRANSFORM_R180 dw dh m mold =
        some ({ m with i_x := dw - 1 - m.i_x, i_y := dh - 1 - m.i_y }, VLC_SUCCESS)) ∧
    (∀ (dw dh : Int) (m mold : vlc_mouse_t),
      Mouse .TRANSFORM_TRANSPOSE dw dh m mold =
        some ({ m with i_x := m.i_y, i_y := m.i_x }, VLC_SUCCESS)) ∧
    (∀ (dw dh : Int) (m mold : vlc_mouse_t),
      Mouse .TRANSFORM_R90 dw dh m mold =
        some ({ m with i_x := m.i_y, i_y := dw - 1 - m.i_x }, VLC_SUCCESS)) ∧
    (∀ (dw dh : Int) (m mold : vlc_mouse_t),
      Mouse .TRANSFORM_R270 dw dh m mold =
        some ({ m with i_x := dh - 1 - m.i_y, i_y := m.i_x }, VLC_SUCCESS)) ∧
    (∀ (dw dh : Int) (m mold : vlc_mouse_t),
      Mouse .TRANSFORM_ANTI_TRANSPOSE dw dh m mold =
        some ({ m with i_x := dh - 1 - m.i_y, i_y := dw - 1 - m.i_x },
          VLC_SUCCESS)) ∧
    Mouse .TRANSFORM_HFLIP 100 50 ⟨10, 5, 0, false⟩ ⟨0, 0, 0, false⟩ =
      some (⟨89, 5, 0, false⟩, VLC_SUCCESS) :=
  ⟨fun dw dh m mold => rfl, fun dw dh m mold => rfl, fun dw dh m mold => rfl,
    fun dw dh m mold => rfl, fun dw dh m mold => rfl, fun dw dh m mold => rfl,
    fun dw dh m mold => rfl, by decide⟩

/-- C10: for every configured non-identity transform and every input mouse
state, `Mouse` writes only `i_x` and `i_y` (the pressed mask and
double-click flag are unchanged), always returns `VLC_SUCCESS`, and its
output depends only on the transform, the destination visible dimensions,
and the input `i_x`/`i_y` — never on the previous mouse state `mold`. -/
theorem claim_C10 (t : video_transform) (ht : t ≠ .TRANSFORM_IDENTITY)
    (dw dh : Int) (m mold : vlc_mouse_t) :
    (∃ r : vlc_mouse_t × Int,
      Mouse t dw dh m mold = some r ∧
      r.2 = VLC_SUCCESS ∧
      r.1.i_pressed = m.i_pressed ∧
      r.1.b_double_click = m.b_double_click ∧
      r.1.i_x = mouse_sx t dw dh m.i_x m.i_y ∧
      r.1.i_y = mouse_sy t dw dh m.i_x m.i_y) ∧
    (∀ mold2 : vlc_mouse_t, Mouse t dw dh m mold2 = Mouse t dw dh m mold) ∧
    (∀ m2 : vlc_mouse_t, m2.i_x = m.i_x → m2.i_y = m.i_y →
      (Mouse t dw dh m2 mold).map (fun r => (r.1.i_x, r.1.i_y)) =
        (Mouse t dw dh m mold).map (fun r => (r.1.i_x, r.1.i_y))) := by
  refine ⟨⟨(⟨mouse_sx t dw dh m.i_x m.i_y, mouse_sy t dw dh m.i_x m.i_y,
      m.i_pressed, m.b_double_click⟩, VLC_SUCCESS), ?_, rfl, rfl, rfl, rfl, rfl⟩,
    ?_, ?_⟩
  · rw [Mouse, if_neg ht]
  · intro mold2; rfl
  · intro m2 h1 h2
    simp [Mouse, ht, h1, h2]

/-- Witness for C10: the theorem applied at HFLIP with concrete dimensions
and mouse state. -/
theorem claim_C10_witness :
    (video_transform.TRANSFORM_HFLIP ≠ video_transform.TRANSFORM_IDENTITY) ∧
    (Mouse .TRANSFORM_HFLIP 100 50 ⟨10, 5, 3, true⟩ ⟨7, 8, 9, false⟩).map
        (fun r => (r.1.i_x, r.1.i_y)) = some (89, 5) := by
  refine ⟨by decide, ?_⟩
  obtain ⟨⟨r, hr, hc, hp, hd, hx, hy⟩, hmold, hdep⟩ :=
    claim_C10 .TRANSFORM_HFLIP (by decide) 100 50 ⟨10, 5, 3, true⟩ ⟨7, 8, 9, false⟩
  rw [hr]
  show some (r.1.i_x, r.1.i_y) = some (89, 5)
  rw [hx, hy]
  decide

/-! ## Claim theorem C9 (Filter effects) -/

/-- C9: every invocation of `Filter` releases the source picture exactly
once, both when destination allocation succeeds and when it fails; on
allocation failure no plane transform is invoked, no metadata is copied,
and no destination is produced (NULL is returned); on success the allocated
destination is returned. -/
theorem claim_C9 (sys : filter_sys_t) (src : picture_t)
    (newpic : Option picture_t) :
    ((Filter sys src newpic).2.count FilterEvent.picture_Release = 1) ∧
    (newpic = none →
      (Filter sys src newpic).1 = none ∧
      (∀ (i : Nat) (cb : plane_transform_cb),
        FilterEvent.invoke_plane i cb ∉ (Filter sys src newpic).2) ∧
      FilterEvent.picture_CopyProperties ∉ (Filter sys src newpic).2) ∧
    (∀ dstp : picture_t, newpic = some dstp →
      (Filter sys src newpic).1 = some dstp) := by
  cases newpic with
  | none =>
    refine ⟨by rfl, fun _ => ⟨rfl, fun i cb => by simp [Filter], by simp [Filter]⟩,
      fun dstp h => nomatch h⟩
  | some dstp =>
    refine ⟨?_, fun h => Option.noConfusion h, fun dstp2 h => h⟩
    simp only [Filter, List.count_append]
    have h1 : (((List.range src.i_planes).map
        fun i => FilterEvent.invoke_plane i (plane_entry sys i)).count
          FilterEvent.picture_Release) = 0 := by
      rw [List.count_eq_zero]
      simp
    rw [h1]
    decide

/-- Witness for C9: the theorem applied at a concrete system, source
picture, and failed allocation. -/
theorem claim_C9_witness :
    ((Filter ⟨.TRANSFORM_HFLIP, fun _ => some (.TRANSFORM_HFLIP, 8)⟩ ⟨3⟩
        none).2.count FilterEvent.picture_Release = 1) ∧
    (Filter ⟨.TRANSFORM_HFLIP, fun _ => some (.TRANSFORM_HFLIP, 8)⟩ ⟨3⟩
        none).1 = none := by
  obtain ⟨h1, h2, h3⟩ :=
    claim_C9 ⟨.TRANSFORM_HFLIP, fun _ => some (.TRANSFORM_HFLIP, 8)⟩ ⟨3⟩ none
  exact ⟨h1, (h2 rfl).1⟩

/-! ## The setup gate (`Open`): claims C7 and C8 -/

/-- For every non-identity transform the `descriptions` table holds the
16-bit routine of that same transform in its `plane16` slot. -/
theorem descriptions_plane16 (t : video_transform)
    (ht : t ≠ .TRANSFORM_IDENTITY) :
    (descriptions t).plane16 = some (t, 16) := by
  cases t
  · exact absurd rfl ht
  all_goals rfl

/-- Inversion of the tail of `Open`: if `open_rest` installs a state, the
state carries the given transform, the return code is success, and the
plane table is the constant `p0` table except that for NV12/NV21 input the
second plane holds the 16-bit entry of the `descriptions` row. -/
theorem open_rest_inv (t : video_transform) (p0 : plane_transform_cb)
    (chroma : vlc_chroma_description_t) (fmt_in : video_format_t)
    (sys : filter_sys_t) (code : Int)
    (h : open_rest t p0 chroma fmt_in = (some sys, code)) :
    sys.transform = t ∧ code = VLC_SUCCESS ∧
    ((fmt_in.i_chroma = VLC_CODEC_NV12 ∨ fmt_in.i_chroma = VLC_CODEC_NV21) →
      sys.plane 1 = (descriptions t).plane16 ∧
      ∀ i : Fin PICTURE_PLANE_MAX, i ≠ 1 → sys.plane i = p0) ∧
    (¬(fmt_in.i_chroma = VLC_CODEC_NV12 ∨ fmt_in.i_chroma = VLC_CODEC_NV21) →
      ∀ i : Fin PICTURE_PLANE_MAX, sys.plane i = p0) := by
  simp only [open_rest] at h
  split at h
  · simp at h
  · by_cases hNV : fmt_in.i_chroma = VLC_CODEC_NV12 ∨ fmt_in.i_chroma = VLC_CODEC_NV21
    · rw [if_pos hNV] at h
      simp only [Prod.mk.injEq, Option.some.injEq] at h
      obtain ⟨hsys, hcode⟩ := h
      subst hsys
      exact ⟨rfl, hcode.symm,
        fun _ => ⟨by simp, fun i hi => by simp [Function.update_noteq hi]⟩,
        fun hn => absurd hNV hn⟩
    · rw [if_neg hNV] at h
      simp only [Prod.mk.injEq, Option.some.injEq] at h
      obtain ⟨hsys, hcode⟩ := h
      subst hsys
      exact ⟨rfl, hcode.symm, fun hyes => absurd hyes hNV, fun _ i => rfl⟩

/-- When the compatibility conditions hold (and allocation succeeds),
`Open` installs a state and returns success. -/
theorem Open_success (gT : Nat → Nat → video_transform)
    (tB : video_format_t → video_transform → video_format_t)
    (gC : Nat → Option vlc_chroma_description_t) (fmt_in fmt_out : video_format_t)
    (hc : OpenConds gT tB gC fmt_in fmt_out) :
    ∃ sys, Open gT tB gC true fmt_in fmt_out = (some sys, VLC_SUCCESS) := by
  obtain ⟨h1, hgeo, chroma, hch, hswap, hpix⟩ := hc
  have hnoswap : ¬(ORIENT_IS_SWAP (gT fmt_in.orientation fmt_out.orientation) = true ∧
      ((List.range chroma.plane_count).any fun i =>
        (chroma.p i).w.num * (chroma.p i).h.den !=
          (chroma.p i).h.num * (chroma.p i).w.den) = true) := by
    rintro ⟨hsw, hany⟩
    rw [List.any_eq_true] at hany
    obtain ⟨i, hi, hne⟩ := hany
    rw [List.mem_range] at hi
    rw [bne_iff_ne] at hne
    exact hne (hswap hsw i hi)
  simp only [Open]
  rw [if_neg h1]
  rw [if_neg (by push_neg; exact hgeo)]
  simp only [hch]
  rw [if_neg (by simp : ¬(true = false))]
  rcases hpix with hp | hp | hp <;> rw [hp] <;>
    simp only [open_rest] <;> rw [if_neg hnoswap] <;> exact ⟨_, rfl⟩

/-- When any compatibility condition fails, `Open` rejects with
`VLC_ENOTSUP` and installs nothing. -/
theorem Open_reject (gT : Nat → Nat → video_transform)
    (tB : video_format_t → video_transform → video_format_t)
    (gC : Nat → Option vlc_chroma_description_t) (fmt_in fmt_out : video_format_t)
    (hnc : ¬ OpenConds gT tB gC fmt_in fmt_out) :
    Open gT tB gC true fmt_in fmt_out = (none, VLC_ENOTSUP) := by
  by_cases h1 : gT fmt_in.orientation fmt_out.orientation = .TRANSFORM_IDENTITY
  · simp only [Open]
    rw [if_pos h1]
  by_cases hgeo : fmt_out.i_chroma =
      (tB fmt_in (gT fmt_in.orientation fmt_out.orientation)).i_chroma ∧
      fmt_out.i_width =
        (tB fmt_in (gT fmt_in.orientation fmt_out.orientation)).i_width ∧
      fmt_out.i_visible_width =
        (tB fmt_in (gT fmt_in.orientation fmt_out.orientation)).i_visible_width ∧
      fmt_out.i_height =
        (tB fmt_in (gT fmt_in.orientation fmt_out.orientation)).i_height ∧
      fmt_out.i_visible_height =
        (tB fmt_in (gT fmt_in.orientation fmt_out.orientation)).i_visible_height ∧
      fmt_out.i_x_offset =
        (tB fmt_in (gT fmt_in.orientation fmt_out.orientation)).i_x_offset ∧
      fmt_out.i_y_offset =
        (tB fmt_in (gT fmt_in.orientation fmt_out.orientation)).i_y_offset
  case neg =>
    simp only [Open]
    rw [if_neg h1]
    rw [if_pos (by by_contra hng; push_neg at hng; exact hgeo hng)]
  cases hch : gC fmt_in.i_chroma with
  | none =>
    simp only [Open]
    rw [if_neg h1]
    rw [if_neg (by push_neg; exact hgeo)]
    simp only [hch]
  | some chroma =>
    by_cases hpix : chroma.pixel_size = 1 ∨ chroma.pixel_size = 2 ∨
        chroma.pixel_size = 4
    · by_cases hswap :
          ORIENT_IS_SWAP (gT fmt_in.orientation fmt_out.orientation) = true →
            ∀ i, i < chroma.plane_count →
              (chroma.p i).w.num * (chroma.p i).h.den =
                (chroma.p i).h.num * (chroma.p i).w.den
      · exact absurd ⟨h1, hgeo, chroma, hch, hswap, hpix⟩ hnc
      · push_neg at hswap
        obtain ⟨hsw, i, hi, hne⟩ := hswap
        have hany : ((List.range chroma.plane_count).any fun i =>
            (chroma.p i).w.num * (chroma.p i).h.den !=
              (chroma.p i).h.num * (chroma.p i).w.den) = true := by
          rw [List.any_eq_true]
          exact ⟨i, List.mem_range.mpr hi, bne_iff_ne.mpr hne⟩
        simp only [Open]
        rw [if_neg h1]
        rw [if_neg (by push_neg; exact hgeo)]
        simp only [hch]
        rw [if_neg (by simp : ¬(true = false))]
        rcases hpix with hp | hp | hp <;> rw [hp] <;>
          simp only [open_rest] <;> rw [if_pos ⟨hsw, hany⟩]
    · simp only [Open]
      rw [if_neg h1]
      rw [if_neg (by push_neg; exact hgeo)]
      simp only [hch]
      rw [if_neg (by simp : ¬(true = false))]
      split
      · next hp => exact absurd (Or.inl hp) hpix
      · next hp => exact absurd (Or.inr (Or.inl hp)) hpix
      · next hp => exact absurd (Or.inr (Or.inr hp)) hpix
      · rfl

/-- C7: assuming allocation succeeds, `Open` installs a transform table and
returns success exactly when the compatibility conditions `OpenConds` hold
(the resolved transform is not the identity, the transformed geometry
matches the output format exactly, the chroma description resolves, every
plane is square-sampled if the transform is swap-class, and the pixel size
is 1, 2 or 4); any violation yields `VLC_ENOTSUP` with no table installed.
In particular a proposed R90 is rejected when a chroma plane has 2:1
horizontal but 1:1 vertical subsampling. -/
theorem claim_C7 :
    (∀ (gT : Nat → Nat → video_transform)
      (tB : video_format_t → video_transform → video_format_t)
      (gC : Nat → Option vlc_chroma_description_t) (fmt_in fmt_out : video_format_t),
      ((∃ sys, Open gT tB gC true fmt_in fmt_out = (some sys, VLC_SUCCESS)) ↔
        OpenConds gT tB gC fmt_in fmt_out) ∧
      (¬ OpenConds gT tB gC fmt_in fmt_out →
        Open gT tB gC true fmt_in fmt_out = (none, VLC_ENOTSUP))) ∧
    Open (fun _ _ => .TRANSFORM_R90) (fun f _ => f)
      (fun _ => some ⟨2, fun i => if i = 0 then ⟨⟨1, 1⟩, ⟨1, 1⟩⟩
        else ⟨⟨1, 2⟩, ⟨1, 1⟩⟩, 1⟩)
      true ⟨0, 0, 0, 0, 0, 0, 0, 0⟩ ⟨0, 0, 0, 0, 0, 0, 0, 0⟩ =
      (none, VLC_ENOTSUP) := by
  refine ⟨fun gT tB gC fmt_in fmt_out => ⟨⟨?_, Open_success gT tB gC fmt_in fmt_out⟩,
    Open_reject gT tB gC fmt_in fmt_out⟩, by rfl⟩
  rintro ⟨sys, hs⟩
  by_contra hnc
  have := (Open_reject gT tB gC fmt_in fmt_out hnc).symm.trans hs
  simp at this

/-- Witness for C7: the success direction applied to concrete collaborators
and formats on which every compatibility condition holds. -/
theorem claim_C7_witness :
    OpenConds (fun _ _ => .TRANSFORM_HFLIP) (fun f _ => f)
      (fun _ => some ⟨1, fun _ => ⟨⟨1, 1⟩, ⟨1, 1⟩⟩, 1⟩)
      ⟨0, 0, 0, 0, 0, 0, 0, 0⟩ ⟨0, 0, 0, 0, 0, 0, 0, 0⟩ ∧
    ∃ sys, Open (fun _ _ => .TRANSFORM_HFLIP) (fun f _ => f)
      (fun _ => some ⟨1, fun _ => ⟨⟨1, 1⟩, ⟨1, 1⟩⟩, 1⟩)
      true ⟨0, 0, 0, 0, 0, 0, 0, 0⟩ ⟨0, 0, 0, 0, 0, 0, 0, 0⟩ =
      (some sys, VLC_SUCCESS) := by
  have hc : OpenConds (fun _ _ => .TRANSFORM_HFLIP) (fun f _ => f)
      (fun _ => some ⟨1, fun _ => ⟨⟨1, 1⟩, ⟨1, 1⟩⟩, 1⟩)
      ⟨0, 0, 0, 0, 0, 0, 0, 0⟩ ⟨0, 0, 0, 0, 0, 0, 0, 0⟩ :=
    ⟨by decide, ⟨rfl, rfl, rfl, rfl, rfl, rfl, rfl⟩,
      ⟨1, fun _ => ⟨⟨1, 1⟩, ⟨1, 1⟩⟩, 1⟩, rfl,
      fun hsw => absurd hsw (by decide), Or.inl rfl⟩
  exact ⟨hc,
    ((claim_C7.1 (fun _ _ => .TRANSFORM_HFLIP) (fun f _ => f)
      (fun _ => some ⟨1, fun _ => ⟨⟨1, 1⟩, ⟨1, 1⟩⟩, 1⟩)
      ⟨0, 0, 0, 0, 0, 0, 0, 0⟩ ⟨0, 0, 0, 0, 0, 0, 0, 0⟩).1).mpr hc⟩

/-- C8: whenever setup installs a per-plane dispatch table, every plane uses
the entry selected by the primary plane's element width (1, 2 or 4 bytes),
except that for the packed-chroma inputs NV12 and NV21 the second plane's
entry is forced to the 16-bit (2-byte) variant of the same transform kind,
regardless of the format's nominal sample size. -/
theorem claim_C8 (gT : Nat → Nat → video_transform)
    (tB : video_format_t → video_transform → video_format_t)
    (gC : Nat → Option vlc_chroma_description_t) (allocOk : Bool)
    (fmt_in fmt_out : video_format_t) (sys : filter_sys_t) (code : Int)
    (h : Open gT tB gC allocOk fmt_in fmt_out = (some sys, code)) :
    sys.transform = gT fmt_in.orientation fmt_out.orientation ∧
    ∃ chroma, gC fmt_in.i_chroma = some chroma ∧
      (chroma.pixel_size = 1 ∨ chroma.pixel_size = 2 ∨ chroma.pixel_size = 4) ∧
      sys.plane 0 =
        (if chroma.pixel_size = 1 then (descriptions sys.transform).plane8
          else if chroma.pixel_size = 2 then (descriptions sys.transform).plane16
          else (descriptions sys.transform).plane32) ∧
      ((fmt_in.i_chroma = VLC_CODEC_NV12 ∨ fmt_in.i_chroma = VLC_CODEC_NV21) →
        sys.plane 1 = (descriptions sys.transform).plane16 ∧
        (descriptions sys.transform).plane16 = some (sys.transform, 16) ∧
        ∀ i : Fin PICTURE_PLANE_MAX, i ≠ 1 →
          sys.plane i =
            (if chroma.pixel_size = 1 then (descriptions sys.transform).plane8
              else if chroma.pixel_size = 2 then (descriptions sys.transform).plane16
              else (descriptions sys.transform).plane32)) ∧
      (¬(fmt_in.i_chroma = VLC_CODEC_NV12 ∨ fmt_in.i_chroma = VLC_CODEC_NV21) →
        ∀ i : Fin PICTURE_PLANE_MAX,
          sys.plane i =
            (if chroma.pixel_size = 1 then (descriptions sys.transform).plane8
              else if chroma.pixel_size = 2 then (descriptions sys.transform).plane16
              else (descriptions sys.transform).plane32)) := by
  simp only [Open] at h
  split at h
  · simp at h
  · next h1 =>
    split at h
    · simp at h
    · next hgeo =>
      split at h
      · simp at h
      · next chroma hch =>
        split at h
        · simp at h
        · next halloc =>
          split at h
          · next hps =>
            obtain ⟨htr, hcode, hNVyes, hNVno⟩ := open_rest_inv _ _ _ _ _ _ h
            have hsel : (if chroma.pixel_size = 1 then
                  (descriptions sys.transform).plane8
                else if chroma.pixel_size = 2 then
                  (descriptions sys.transform).plane16
                else (descriptions sys.transform).plane32) =
                (descriptions (gT fmt_in.orientation fmt_out.orientation)).plane8 := by
              simp [htr, hps]
            refine ⟨htr, chroma, hch, Or.inl hps, ?_, ?_, ?_⟩
            · rw [hsel]
              by_cases hNV : fmt_in.i_chroma = VLC_CODEC_NV12 ∨
                  fmt_in.i_chroma = VLC_CODEC_NV21
              · exact (hNVyes hNV).2 0 (by decide)
              · exact hNVno hNV 0
            · intro hNV
              rw [hsel, htr]
              exact ⟨(hNVyes hNV).1, descriptions_plane16 _ h1, (hNVyes hNV).2⟩
            · intro hNV i
              rw [hsel]
              exact hNVno hNV i
          · next hps =>
            obtain ⟨htr, hcode, hNVyes, hNVno⟩ := open_rest_inv _ _ _ _ _ _ h
            have hsel : (if chroma.pixel_size = 1 then
                  (descriptions sys.transform).plane8
                else if chroma.pixel_size = 2 then
                  (descriptions sys.transform).plane16
                else (descriptions sys.transform).plane32) =
                (descriptions (gT fmt_in.orientation fmt_out.orientation)).plane16 := by
              simp [htr, hps]
            refine ⟨htr, chroma, hch, Or.inr (Or.inl hps), ?_, ?_, ?_⟩
            · rw [hsel]
              by_cases hNV : fmt_in.i_chroma = VLC_CODEC_NV12 ∨
                  fmt_in.i_chroma = VLC_CODEC_NV21
              · exact (hNVyes hNV).2 0 (by decide)
              · exact hNVno hNV 0
            · intro hNV
              rw [hsel, htr]
              exact ⟨(hNVyes hNV).1, descriptions_plane16 _ h1, (hNVyes hNV).2⟩
            · intro hNV i
              rw [hsel]
              exact hNVno hNV i
          · next hps =>
            obtain ⟨htr, hcode, hNVyes, hNVno⟩ := open_rest_inv _ _ _ _ _ _ h
            have hsel : (if chroma.pixel_size = 1 then
                  (descriptions sys.transform).plane8
                else if chroma.pixel_size = 2 then
                  (descriptions sys.transform).plane16
                else (descriptions sys.transform).plane32) =
                (descriptions (gT fmt_in.orientation fmt_out.orientation)).plane32 := by
              simp [htr, hps]
            refine ⟨htr, chroma, hch, Or.inr (Or.inr hps), ?_, ?_, ?_⟩
            · rw [hsel]
              by_cases hNV : fmt_in.i_chroma = VLC_CODEC_NV12 ∨
                  fmt_in.i_chroma = VLC_CODEC_NV21
              · exact (hNVyes hNV).2 0 (by decide)
              · exact hNVno hNV 0
            · intro hNV
              rw [hsel, htr]
              exact ⟨(hNVyes hNV).1, descriptions_plane16 _ h1, (hNVyes hNV).2⟩
            · intro hNV i
              rw [hsel]
              exact hNVno hNV i
          · simp at h

/-- Witness for C8: the theorem applied to a concrete NV12 setup on which
`Open` succeeds, showing the forced 16-bit second-plane entry. -/
theorem claim_C8_witness :
    Open (fun _ _ => .TRANSFORM_HFLIP) (fun f _ => f)
        (fun _ => some ⟨2, fun _ => ⟨⟨1, 1⟩, ⟨1, 1⟩⟩, 1⟩) true
        ⟨VLC_CODEC_NV12, 0, 0, 0, 0, 0, 0, 0⟩ ⟨VLC_CODEC_NV12, 0, 0, 0, 0, 0, 0, 0⟩ =
      (some ⟨.TRANSFORM_HFLIP,
        Function.update (fun _ => some (.TRANSFORM_HFLIP, 8)) 1
          (some (.TRANSFORM_HFLIP, 16))⟩, VLC_SUCCESS) ∧
    (⟨.TRANSFORM_HFLIP,
        Function.update (fun _ => some (.TRANSFORM_HFLIP, 8)) 1
          (some (.TRANSFORM_HFLIP, 16))⟩ : filter_sys_t).plane 1 =
      (descriptions .TRANSFORM_HFLIP).plane16 := by
  refine ⟨rfl, ?_⟩
  obtain ⟨htr, chroma, hch, hpix, hp0, hNVyes, hNVno⟩ :=
    claim_C8 (fun _ _ => .TRANSFORM_HFLIP) (fun f _ => f)
      (fun _ => some ⟨2, fun _ => ⟨⟨1, 1⟩, ⟨1, 1⟩⟩, 1⟩) true
      ⟨VLC_CODEC_NV12, 0, 0, 0, 0, 0, 0, 0⟩ ⟨VLC_CODEC_NV12, 0, 0, 0, 0, 0, 0, 0⟩
      ⟨.TRANSFORM_HFLIP,
        Function.update (fun _ => some (.TRANSFORM_HFLIP, 8)) 1
          (some (.TRANSFORM_HFLIP, 16))⟩ VLC_SUCCESS rfl
  have := (hNVyes (Or.inl rfl)).1
  rw [htr] at this
  exact this

/-! ## Claim theorem C5 (forward mapping and Mouse inverse) -/

/-- C5: `forward_point` is the coordinate action of the plane primitives
(first part: for every non-identity kind, every element width, and every
in-bounds source pixel, the primitive writes source pixel `(sx, sy)` to the
destination position `forward_point` gives, bytewise), and applying this
forward mapping and then the `Mouse` inverse mapping with the destination
dimensions of that transform returns exactly `(sx, sy)` (second part). -/
theorem claim_C5 :
    (∀ (t : video_transform), t ≠ .TRANSFORM_IDENTITY →
      ∀ (w : Nat), w = 1 ∨ w = 2 ∨ w = 4 →
      ∀ (dst src : Mem) (dstBase srcBase ssE dsE : Int) (W H : Nat),
        (if ORIENT_IS_SWAP t then (H : Int) else (W : Int)) ≤ dsE →
        (W : Int) ≤ ssE →
        ∀ (sx sy b : Nat), sx < W → sy < H → b < w →
          run_cb t (8 * w) dst dstBase (dsE * w) src srcBase (ssE * w) W H
              (dstBase + (forward_point t W H sx sy).2 * (dsE * w) +
                (forward_point t W H sx sy).1 * w + b) =
            src (srcBase + (sy : Int) * (ssE * w) + (sx : Int) * w + b)) ∧
    (∀ (t : video_transform), t ≠ .TRANSFORM_IDENTITY →
      ∀ (sw sh sx sy : Int), 0 ≤ sx → sx < sw → 0 ≤ sy → sy < sh →
      ∀ (p : Nat) (dc : Bool) (mold : vlc_mouse_t),
        Mouse t (if ORIENT_IS_SWAP t then sh else sw)
            (if ORIENT_IS_SWAP t then sw else sh)
            ⟨(forward_point t sw sh sx sy).1, (forward_point t sw sh sx sy).2, p, dc⟩
            mold =
          some (⟨sx, sy, p, dc⟩, VLC_SUCCESS)) := by
  constructor
  · intro t ht w hw dst src dstBase srcBase ssE dsE W H hds hss sx sy b hsx hsy hb
    have hw0 : 0 < w := by omega
    have hbits : 8 * w / 8 = w := by omega
    cases t
    case TRANSFORM_IDENTITY => exact absurd rfl ht
    case TRANSFORM_HFLIP =>
      simp only [ORIENT_IS_SWAP, if_false, Bool.false_eq_true] at hds
      simp only [run_cb, forward_point, hbits]
      rw [show (W : Int) - 1 - sx = ((W - 1 - sx : Nat) : Int) from by omega]
      have heq := hflip_spec w hw0 dst src dstBase srcBase ssE dsE W H hds sy
        (W - 1 - sx) b hsy (by omega) hb
      rw [show W - 1 - (W - 1 - sx) = sx from by omega] at heq
      exact heq
    case TRANSFORM_VFLIP =>
      simp only [ORIENT_IS_SWAP, if_false, Bool.false_eq_true] at hds
      simp only [run_cb, vflip_w, forward_point, hbits]
      have hS : ((W <<< ctz w : Nat) : Int) ≤ dsE * w := by
        rw [shl_ctz W w hw]
        push_cast
        exact mul_le_mul_of_nonneg_right hds (by positivity)
      have hc : sx * w + b < W <<< ctz w := by
        rw [shl_ctz W w hw]
        calc sx * w + b < sx * w + w := by omega
          _ = (sx + 1) * w := by ring
          _ ≤ W * w := Nat.mul_le_mul_right w hsx
      have heq := vflip_spec dst src dstBase srcBase (ssE * w) (dsE * w) W H
        (ctz w) hS sy (sx * w + b) hsy hc
      rw [show ((H - 1 - sy : Nat) : Int) = (H : Int) - 1 - sy from by omega,
        show ((sx * w + b : Nat) : Int) = (sx : Int) * w + b from by push_cast; ring]
        at heq
      rw [show dstBase + ((H : Int) - 1 - sy) * (dsE * w) + (sx : Int) * w + b =
        dstBase + ((H : Int) - 1 - sy) * (dsE * w) + ((sx : Int) * w + b) from by ring]
      rw [show srcBase + (sy : Int) * (ssE * w) + (sx : Int) * w + b =
        srcBase + (sy : Int) * (ssE * w) + ((sx : Int) * w + b) from by ring]
      exact heq
    case TRANSFORM_R180 =>
      simp only [ORIENT_IS_SWAP, if_false, Bool.false_eq_true] at hds
      simp only [run_cb, forward_point, hbits]
      rw [show (W : Int) - 1 - sx = ((W - 1 - sx : Nat) : Int) from by omega,
        show (H : Int) - 1 - sy = ((H - 1 - sy : Nat) : Int) from by omega]
      have heq := r180_spec w hw0 dst src dstBase srcBase ssE dsE W H hds
        (H - 1 - sy) (W - 1 - sx) b (by omega) (by omega) hb
      rw [show W - 1 - (W - 1 - sx) = sx from by omega,
        show H - 1 - (H - 1 - sy) = sy from by omega] at heq
      exact heq
    case TRANSFORM_TRANSPOSE =>
      simp only [ORIENT_IS_SWAP, if_true] at hds
      simp only [run_cb, forward_point, hbits]
      exact transpose_spec w hw0 dst src dstBase srcBase ssE dsE W H
        (le_trans hds (le_abs_self _)) sy sx b hsy hsx hb
    case TRANSFORM_R90 =>
      simp only [ORIENT_IS_SWAP, if_true] at hds
      simp only [run_cb, forward_point, hbits]
      rw [show (H : Int) - 1 - sy = ((H - 1 - sy : Nat) : Int) from by omega]
      have heq := r90_spec w hw0 dst src dstBase srcBase ssE dsE W H hds
        (H - 1 - sy) sx b (by omega) hsx hb
      rw [show H - 1 - (H - 1 - sy) = sy from by omega] at heq
      exact heq
    case TRANSFORM_R270 =>
      simp only [ORIENT_IS_SWAP, if_true] at hds
      simp only [run_cb, forward_point, hbits]
      rw [show (W : Int) - 1 - sx = ((W - 1 - sx : Nat) : Int) from by omega]
      have heq := r270_spec w hw0 dst src dstBase srcBase ssE dsE W H hds
        sy (W - 1 - sx) b hsy (by omega) hb
      rw [show W - 1 - (W - 1 - sx) = sx from by omega] at heq
      exact heq
    case TRANSFORM_ANTI_TRANSPOSE =>
      simp only [ORIENT_IS_SWAP, if_true] at hds
      simp only [run_cb, forward_point, hbits]
      rw [show (W : Int) - 1 - sx = ((W - 1 - sx : Nat) : Int) from by omega,
        show (H : Int) - 1 - sy = ((H - 1 - sy : Nat) : Int) from by omega]
      have heq := antitranspose_spec w hw0 dst src dstBase srcBase ssE dsE W H hds
        (H - 1 - sy) (W - 1 - sx) b (by omega) (by omega) hb
      rw [show W - 1 - (W - 1 - sx) = sx from by omega,
        show H - 1 - (H - 1 - sy) = sy from by omega] at heq
      exact heq
  · intro t ht sw sh sx sy h1 h2 h3 h4 p dc mold
    have hmouse : ∀ A B : Int, A = sx → B = sy →
        (some (⟨A, B, p, dc⟩, VLC_SUCCESS) : Option (vlc_mouse_t × Int)) =
          some (⟨sx, sy, p, dc⟩, VLC_SUCCESS) := by
      intro A B hA hB
      rw [hA, hB]
    cases t
    case TRANSFORM_IDENTITY => exact absurd rfl ht
    all_goals
      simp only [Mouse, mouse_sx, mouse_sy, forward_point, ORIENT_IS_SWAP,
        if_true, if_false, Bool.false_eq_true, reduceCtorEq, reduceIte]
    all_goals
      exact hmouse _ _ (by omega) (by omega)

/-- Witness for C5: both parts applied at HFLIP on concrete inputs (a 4-by-1
byte plane for the plane-level part, and concrete coordinates for the
round-trip part), with every hypothesis discharged there. -/
theorem claim_C5_witness :
    ((video_transform.TRANSFORM_HFLIP ≠ video_transform.TRANSFORM_IDENTITY) ∧
      ((1 : Nat) = 1 ∨ (1 : Nat) = 2 ∨ (1 : Nat) = 4) ∧
      (0 : Int) ≤ 2 ∧ (2 : Int) < 5 ∧ (0 : Int) ≤ 1 ∧ (1 : Int) < 3) ∧
    run_cb .TRANSFORM_HFLIP (8 * 1) (fun _ => 0) 0 (4 * ((1 : Nat) : Int))
        (listMem [1, 2, 3, 4]) 0 (4 * ((1 : Nat) : Int)) 4 1
        (0 + (forward_point .TRANSFORM_HFLIP ((4 : Nat) : Int) ((1 : Nat) : Int)
            ((3 : Nat) : Int) ((0 : Nat) : Int)).2 * (4 * ((1 : Nat) : Int)) +
          (forward_point .TRANSFORM_HFLIP ((4 : Nat) : Int) ((1 : Nat) : Int)
            ((3 : Nat) : Int) ((0 : Nat) : Int)).1 * ((1 : Nat) : Int) +
          ((0 : Nat) : Int)) =
      listMem [1, 2, 3, 4]
        (0 + ((0 : Nat) : Int) * (4 * ((1 : Nat) : Int)) +
          ((3 : Nat) : Int) * ((1 : Nat) : Int) + ((0 : Nat) : Int)) ∧
    Mouse .TRANSFORM_HFLIP
        (if ORIENT_IS_SWAP .TRANSFORM_HFLIP then (3 : Int) else (5 : Int))
        (if ORIENT_IS_SWAP .TRANSFORM_HFLIP then (5 : Int) else (3 : Int))
        ⟨(forward_point .TRANSFORM_HFLIP 5 3 2 1).1,
          (forward_point .TRANSFORM_HFLIP 5 3 2 1).2, 0, false⟩
        ⟨0, 0, 0, false⟩ =
      some (⟨2, 1, 0, false⟩, VLC_SUCCESS) :=
  ⟨by decide,
    claim_C5.1 .TRANSFORM_HFLIP (by decide) 1 (by decide) (fun _ => 0)
      (listMem [1, 2, 3, 4]) 0 0 4 4 4 1 (by decide) (by decide) 3 0 0
      (by decide) (by decide) (by decide),
    claim_C5.2 .TRANSFORM_HFLIP (by decide) 5 3 2 1 (by decide) (by decide)
      (by decide) (by decide) 0 false ⟨0, 0, 0, false⟩⟩

/-! ## Claim theorem C6 (safety: no-op on empty planes, no access outside
the visible regions) -/

/-- C6: for every plane transform routine (all seven non-identity kinds,
all three element widths), with zero width or height no destination byte is
written and no source byte is read; and for all dimensions and strides
(multiples of the element size, at least the respective visible row size,
so possibly exceeding it), no byte outside the visible region of the
destination is written and no byte outside the visible region of the source
is read — padding bytes between rows are skipped, never copied or
zero-filled. -/
theorem claim_C6 (t : video_transform) (ht : t ≠ .TRANSFORM_IDENTITY)
    (bits : Nat) (hbits : bits = 8 ∨ bits = 16 ∨ bits = 32)
    (dst src : Mem) (dstBase srcBase : Int) (ssE dsE : Int) (W H : Nat)
    (hds : ((if ORIENT_IS_SWAP t then H else W : Nat) : Int) ≤ dsE)
    (hss : (W : Int) ≤ ssE) :
    ((W = 0 ∨ H = 0) →
      (∀ a, run_cb t bits dst dstBase (dsE * ((bits / 8 : Nat) : Int)) src srcBase
          (ssE * ((bits / 8 : Nat) : Int)) W H a = dst a) ∧
      (∀ (src2 : Mem) (a : Int),
        run_cb t bits dst dstBase (dsE * ((bits / 8 : Nat) : Int)) src srcBase
            (ssE * ((bits / 8 : Nat) : Int)) W H a =
          run_cb t bits dst dstBase (dsE * ((bits / 8 : Nat) : Int)) src2 srcBase
            (ssE * ((bits / 8 : Nat) : Int)) W H a)) ∧
    (∀ a, ¬ inRegion dstBase (dsE * ((bits / 8 : Nat) : Int))
        (if ORIENT_IS_SWAP t then W else H)
        ((if ORIENT_IS_SWAP t then H else W) * (bits / 8)) a →
      run_cb t bits dst dstBase (dsE * ((bits / 8 : Nat) : Int)) src srcBase
        (ssE * ((bits / 8 : Nat) : Int)) W H a = dst a) ∧
    (∀ src1 src2 : Mem,
      (∀ a, inRegion srcBase (ssE * ((bits / 8 : Nat) : Int)) H (W * (bits / 8)) a →
        src1 a = src2 a) →
      ∀ a, run_cb t bits dst dstBase (dsE * ((bits / 8 : Nat) : Int)) src1 srcBase
          (ssE * ((bits / 8 : Nat) : Int)) W H a =
        run_cb t bits dst dstBase (dsE * ((bits / 8 : Nat) : Int)) src2 srcBase
          (ssE * ((bits / 8 : Nat) : Int)) W H a) := by
  have hw : bits / 8 = 1 ∨ bits / 8 = 2 ∨ bits / 8 = 4 := by
    rcases hbits with rfl | rfl | rfl <;> norm_num
  have hw0 : 0 < bits / 8 := by omega
  have hwrite : ∀ a, ¬ inRegion dstBase (dsE * ((bits / 8 : Nat) : Int))
      (if ORIENT_IS_SWAP t then W else H)
      ((if ORIENT_IS_SWAP t then H else W) * (bits / 8)) a →
      run_cb t bits dst dstBase (dsE * ((bits / 8 : Nat) : Int)) src srcBase
        (ssE * ((bits / 8 : Nat) : Int)) W H a = dst a := by
    intro a ha
    cases t
    case TRANSFORM_IDENTITY => exact absurd rfl ht
    case TRANSFORM_HFLIP =>
      simp only [ORIENT_IS_SWAP, Bool.false_eq_true, if_false] at ha
      simp only [run_cb]
      exact hflip_frame (bits / 8) hw0 dst src dstBase srcBase ssE dsE W H a ha
    case TRANSFORM_VFLIP =>
      simp only [ORIENT_IS_SWAP, Bool.false_eq_true, if_false] at ha
      simp only [run_cb]
      exact vflip_w_frame (bits / 8) hw dst src dstBase srcBase _ _ W H a ha
    case TRANSFORM_R180 =>
      simp only [ORIENT_IS_SWAP, Bool.false_eq_true, if_false] at ha
      simp only [run_cb]
      exact r180_frame (bits / 8) hw0 dst src dstBase srcBase ssE dsE W H a ha
    case TRANSFORM_TRANSPOSE =>
      simp only [ORIENT_IS_SWAP, if_true] at ha
      simp only [run_cb]
      exact transpose_frame (bits / 8) hw0 dst src dstBase srcBase ssE dsE W H a ha
    case TRANSFORM_R90 =>
      simp only [ORIENT_IS_SWAP, if_true] at ha
      simp only [run_cb]
      exact r90_frame (bits / 8) hw0 dst src dstBase srcBase ssE dsE W H a ha
    case TRANSFORM_R270 =>
      simp only [ORIENT_IS_SWAP, if_true] at ha
      simp only [run_cb]
      exact r270_frame (bits / 8) hw0 dst src dstBase srcBase ssE dsE W H a ha
    case TRANSFORM_ANTI_TRANSPOSE =>
      simp only [ORIENT_IS_SWAP, if_true] at ha
      simp only [run_cb]
      exact antitranspose_frame (bits / 8) hw0 dst src dstBase srcBase ssE dsE W H a ha
  have hread : ∀ src1 src2 : Mem,
      (∀ a, inRegion srcBase (ssE * ((bits / 8 : Nat) : Int)) H (W * (bits / 8)) a →
        src1 a = src2 a) →
      ∀ a, run_cb t bits dst dstBase (dsE * ((bits / 8 : Nat) : Int)) src1 srcBase
          (ssE * ((bits / 8 : Nat) : Int)) W H a =
        run_cb t bits dst dstBase (dsE * ((bits / 8 : Nat) : Int)) src2 srcBase
          (ssE * ((bits / 8 : Nat) : Int)) W H a := by
    intro src1 src2 hsrc a
    cases t
    case TRANSFORM_IDENTITY => exact absurd rfl ht
    case TRANSFORM_HFLIP =>
      simp only [run_cb]
      exact hflip_congr (bits / 8) hw0 dst src1 src2 dstBase srcBase ssE dsE W H hsrc a
    case TRANSFORM_VFLIP =>
      simp only [run_cb]
      exact vflip_w_congr (bits / 8) hw dst src1 src2 dstBase srcBase _ _ W H hsrc a
    case TRANSFORM_R180 =>
      simp only [run_cb]
      exact r180_congr (bits / 8) hw0 dst src1 src2 dstBase srcBase ssE dsE W H hsrc a
    case TRANSFORM_TRANSPOSE =>
      simp only [run_cb]
      exact transpose_congr (bits / 8) hw0 dst src1 src2 dstBase srcBase ssE dsE W H
        hsrc a
    case TRANSFORM_R90 =>
      simp only [run_cb]
      exact r90_congr (bits / 8) hw0 dst src1 src2 dstBase srcBase ssE dsE W H hsrc a
    case TRANSFORM_R270 =>
      simp only [run_cb]
      exact r270_congr (bits / 8) hw0 dst src1 src2 dstBase srcBase ssE dsE W H hsrc a
    case TRANSFORM_ANTI_TRANSPOSE =>
      simp only [run_cb]
      exact antitranspose_congr (bits / 8) hw0 dst src1 src2 dstBase srcBase ssE dsE
        W H hsrc a
  refine ⟨?_, hwrite, hread⟩
  intro hz
  constructor
  · intro a
    apply hwrite
    rintro ⟨y, c, hy, hc, _⟩
    rcases hz with rfl | rfl <;>
      cases hsw : ORIENT_IS_SWAP t <;> simp [hsw] at hy hc
  · intro src2 a
    apply hread src src2
    intro a2 ha2
    exfalso
    obtain ⟨y, c, hy, hc, _⟩ := ha2
    rcases hz with rfl | rfl <;> omega

/-- Witness for C6: the write-frame part of the theorem applied at HFLIP on
a concrete 2-by-1 byte plane and the out-of-region address -1, with every
hypothesis discharged there. -/
theorem claim_C6_witness :
    ((video_transform.TRANSFORM_HFLIP ≠ video_transform.TRANSFORM_IDENTITY) ∧
      ((8 : Nat) = 8 ∨ (8 : Nat) = 16 ∨ (8 : Nat) = 32) ∧
      (((if ORIENT_IS_SWAP .TRANSFORM_HFLIP then 1 else 2 : Nat) : Int) ≤ 2) ∧
      ((2 : Nat) : Int) ≤ 2) ∧
    run_cb .TRANSFORM_HFLIP 8 (listMem [9, 9]) 0 (2 * ((8 / 8 : Nat) : Int))
        (listMem [1, 2]) 0 (2 * ((8 / 8 : Nat) : Int)) 2 1 (-1) =
      listMem [9, 9] (-1) :=
  ⟨by decide,
    (claim_C6 .TRANSFORM_HFLIP (by decide) 8 (by decide) (listMem [9, 9])
        (listMem [1, 2]) 0 0 2 2 2 1 (by decide) (by decide)).2.1 (-1)
      (by rintro ⟨y, c, hy, hc, heq⟩
          simp only [ORIENT_IS_SWAP, Bool.false_eq_true, if_false] at hy hc
          omega)⟩

end Orient
